import Mathlib

set_option maxRecDepth 4000

/-!
Verification development for the openapi_type_picker repository.

The definitions below are a shallow embedding of the Rust sources:
  - src/openapi.rs   (schema model)
  - src/filter.rs    (filter configuration)
  - src/datatypes.rs (normalized data model)
  - src/processing.rs (type resolver, dependency closure, consistency check)
  - src/writing.rs   (declaration emitter)
Rust HashMaps appear as association lists (the iteration order of a map is the
order of the list), Vec as List, &str and String as String, i32 array depths as
Nat (the code only ever starts at 0 and increments), and fallible functions
return Except.  Errors, which the Rust code creates as boxed strings, are
modelled as an inductive type with one constructor per format! site, plus
constructors for the two reachable panics (Option::unwrap on strip of a
reference path, and indexing all_of[0] on an empty list).
-/

/-- Embedding of the untagged `Schema` enum of src/openapi.rs.  A schema node
is either a reference (the `$ref` key is present) or a typed node; absent
string fields deserialize to "", absent bools to false, absent lists to [],
optional sub-objects to Option. -/
inductive Schema where
  | ref (ref_ : String)
  | typed (schema_type : String) (format : String) (nullable : Bool)
      (description : String) (properties : Option (List (String × Schema)))
      (required : List String) (items : Option Schema)
      (enum_items : Option (List String)) (all_of : Option (List Schema))
      (one_of : Option (List Schema)) (any_of : Option (List Schema))

/-- Embedding of the `OpenApi`/`Components` structs of src/openapi.rs: the
components.schemas map, as an association list. -/
structure OpenApi where
  schemas : List (String × Schema)

/-- Lookup in an association list, the embedding of HashMap::get. -/
def mapGet {α : Type} (m : List (String × α)) (key : String) : Option α :=
  match m with
  | [] => none
  | (k, v) :: rest => if k = key then some v else mapGet rest key

/-- Embedding of HashMap::contains_key. -/
def mapContainsKey {α : Type} (m : List (String × α)) (key : String) : Bool :=
  (mapGet m key).isSome

/-- Embedding of the `SchemaFilter` enum of src/filter.rs. -/
inductive SchemaFilter where
  | acceptAll (s : String)
  | acceptSelected (items : List String)
  deriving DecidableEq

/-- Embedding of SchemaFilter::is_accepted. -/
def SchemaFilter.is_accepted (f : SchemaFilter) (name : String) : Bool :=
  match f with
  | .acceptAll _ => true
  | .acceptSelected items => items.any (fun i => i == name)

/-- Embedding of the `FilterConfig` struct of src/filter.rs (the two derive
lists are carried verbatim; include/exclude maps are association lists).
The fields include_ and exclude_ model the Rust fields include and exclude. -/
structure FilterConfig where
  include_ : Option (List (String × SchemaFilter))
  exclude_ : Option (List (String × SchemaFilter))
  struct_derives : List String
  enum_derives : List String
  auto_include_dependencies : Bool

/-- Embedding of FilterConfig::is_schema_present: the schema is searched in
include if include is set; only otherwise in exclude. -/
def FilterConfig.is_schema_present (f : FilterConfig) (schema_name : String) : Bool :=
  match f.include_ with
  | some schemas => mapContainsKey schemas schema_name
  | none =>
    match f.exclude_ with
    | some schemas => mapContainsKey schemas schema_name
    | none => false

/-- Embedding of FilterConfig::is_schema_accepted. -/
def FilterConfig.is_schema_accepted (f : FilterConfig) (schema_name : String) : Bool :=
  match f.include_ with
  | some schemas => mapContainsKey schemas schema_name
  | none =>
    match f.exclude_ with
    | some schemas =>
      match mapGet schemas schema_name with
      | some schema =>
        match schema with
        | .acceptSelected _ => true
        | .acceptAll _ => false
      | none => true
    | none => true

/-- Embedding of FilterConfig::is_property_accepted. -/
def FilterConfig.is_property_accepted (f : FilterConfig)
    (schema_name property_name : String) : Bool :=
  if f.auto_include_dependencies && !f.is_schema_present schema_name then
    true
  else
    match f.include_ with
    | some schemas =>
      match mapGet schemas schema_name with
      | some filter => filter.is_accepted property_name
      | none => false
    | none =>
      match f.exclude_ with
      | some schemas =>
        match mapGet schemas schema_name with
        | some filter => !filter.is_accepted property_name
        | none => true
      | none => true

/-- Embedding of the `FieldType` enum of src/datatypes.rs. -/
inductive FieldType where
  | plain (t : String)
  | oneOf (items : List String)
  deriving DecidableEq

/-- Embedding of FieldType::to_vec. -/
def FieldType.to_vec (t : FieldType) : List String :=
  match t with
  | .plain t => [t]
  | .oneOf items => items

/-- Embedding of the `StructField` struct of src/datatypes.rs. -/
structure StructField where
  name : String
  type_ : FieldType
  type_format : String
  array_dimensions : Nat
  is_nullable : Bool
  descr : String
  deriving DecidableEq

/-- Embedding of the `DataType` enum of src/datatypes.rs. -/
inductive DataType where
  | Struct (name : String) (fields : List StructField)
  | Enum (name : String) (items : List String)
  | Alias (alias_ : String) (info : StructField)
  deriving DecidableEq

/-- Embedding of DataType::schema_name. -/
def DataType.schema_name (dt : DataType) : String :=
  match dt with
  | .Struct name _ => name
  | .Enum name _ => name
  | .Alias alias_ _ => alias_

/-- Embedding of DataType::sort_fields (src/datatypes.rs): struct fields are
sorted by field name, enum items are sorted; a stable sort models Vec::sort_by
and Vec::sort. -/
def DataType.sort_fields (dt : DataType) : DataType :=
  match dt with
  | .Struct name fields =>
    .Struct name (fields.insertionSort (fun a b => a.name ≤ b.name))
  | .Enum name items => .Enum name (items.insertionSort (fun a b => a ≤ b))
  | .Alias alias_ info => .Alias alias_ info

/-- Errors of the resolver, one constructor per error construction site of
src/processing.rs, plus the two reachable panics. -/
inductive ProcError where
  /-- format: unexpected reference in root of {schema_name} definition -/
  | rootReference (schema_name : String)
  /-- format: property {schema_name}.{name} has untranslatable name -/
  | untranslatableName (schema_name name : String)
  /-- format: property {schema_name}.{name} cannot be a nested object -/
  | nestedObject (schema_name name : String)
  /-- format: {schema_name}.{name}: expected one ref in allOf -/
  | allOfTooMany (schema_name name : String)
  /-- format: {schema_name}.{name}: anyOf is not supported -/
  | anyOfUnsupported (schema_name name : String)
  /-- panic: ref_.strip of the schemas path returned None and was unwrapped -/
  | refMissingSchemaPath (schema_name name ref_ : String)
  /-- panic: all_of[0] indexed into an empty vector -/
  | allOfEmptyIndexPanic (schema_name name : String)
  deriving DecidableEq

deriving instance DecidableEq for Except

/-- Embedding of the property-name validity test of process_schema_property:
every char ASCII alphanumeric or underscore. -/
def valid_property_name (name : String) : Bool :=
  name.toList.all (fun c => c.isAlphanum || c == '_')

/-- The reference path whose front is stripped from $ref values. -/
def schemasPath : String := "#/components/schemas/"

/-- Embedding of ref_.strip of the schemas path (str::strip with the fixed
pattern "#/components/schemas/"): some remainder when ref_ starts with the
path, none otherwise.  Implemented over char lists. -/
def stripSchemasPath (ref_ : String) : Option String :=
  if ref_.toList.take schemasPath.toList.length = schemasPath.toList then
    some (String.mk (ref_.toList.drop schemasPath.toList.length))
  else none

mutual
/-- Embedding of process_schema_property (src/processing.rs lines 97-212).
The branches are checked in source order: name validity, $ref, properties,
items, allOf, oneOf, anyOf, non-empty type, untyped fallback. -/
def process_schema_property (schema_name name : String) (definition : Schema)
    (is_required : Bool) : Except ProcError StructField :=
  if !valid_property_name name then
    .error (.untranslatableName schema_name name)
  else
    match definition with
    | .ref ref_ =>
      match stripSchemasPath ref_ with
      | some target =>
        .ok { name := name, type_ := .plain target, type_format := "",
              array_dimensions := 0, is_nullable := false, descr := "" }
      | none => .error (.refMissingSchemaPath schema_name name ref_)
    | .typed schema_type format nullable description properties _required
        items _enum_items all_of one_of any_of =>
      match properties with
      | some _ => .error (.nestedObject schema_name name)
      | none =>
        match items with
        | some inner =>
          match process_schema_property schema_name name inner is_required with
          | .error e => .error e
          | .ok field =>
            .ok { field with
                  array_dimensions := field.array_dimensions + 1,
                  is_nullable := field.is_nullable || nullable,
                  descr :=
                    if field.descr = "" ∧ description ≠ "" then description
                    else field.descr }
        | none =>
          match all_of with
          | some schemas =>
            if schemas.length > 1 then
              .error (.allOfTooMany schema_name name)
            else
              match schemas with
              | [] => .error (.allOfEmptyIndexPanic schema_name name)
              | first :: _ =>
                match process_schema_property schema_name name first is_required with
                | .error e => .error e
                | .ok field =>
                  .ok { field with
                        is_nullable := field.is_nullable || nullable,
                        descr :=
                          if field.descr = "" ∧ description ≠ "" then
                            description
                          else field.descr }
          | none =>
            match one_of with
            | some schemas =>
              match process_oneof_types schema_name name schemas is_required with
              | .error e => .error e
              | .ok types =>
                .ok { name := name, type_ := .oneOf types, type_format := "",
                      array_dimensions := 0, is_nullable := nullable,
                      descr := description }
            | none =>
              match any_of with
              | some _ => .error (.anyOfUnsupported schema_name name)
              | none =>
                if schema_type ≠ "" then
                  .ok { name := name, type_ := .plain schema_type,
                        type_format := format, array_dimensions := 0,
                        is_nullable := nullable || !is_required,
                        descr := description }
                else
                  .ok { name := "", type_ := .plain "object", type_format := "",
                        array_dimensions := 0,
                        is_nullable := nullable || !is_required,
                        descr := description }

/-- The oneOf loop of process_schema_property: resolve each alternative in
order, abort at the first error, concatenate the alternatives' type names. -/
def process_oneof_types (schema_name name : String) (schemas : List Schema)
    (is_required : Bool) : Except ProcError (List String) :=
  match schemas with
  | [] => .ok []
  | s :: rest =>
    match process_schema_property schema_name name s is_required with
    | .error e => .error e
    | .ok field =>
      match process_oneof_types schema_name name rest is_required with
      | .error e => .error e
      | .ok types => .ok (field.type_.to_vec ++ types)
end

/-- The struct-properties loop of process_schema (src/processing.rs lines
62-74): filter-rejected properties are skipped, others resolved in order with
required-ness looked up in the required list. -/
def process_struct_fields (schema_name : String) (props : List (String × Schema))
    (filter : FilterConfig) (required : List String) :
    Except ProcError (List StructField) :=
  match props with
  | [] => .ok []
  | (prop_name, prop_definition) :: rest =>
    if !filter.is_property_accepted schema_name prop_name then
      process_struct_fields schema_name rest filter required
    else
      match process_schema_property schema_name prop_name prop_definition
          (decide (prop_name ∈ required)) with
      | .error e => .error e
      | .ok field =>
        match process_struct_fields schema_name rest filter required with
        | .error e => .error e
        | .ok fields => .ok (field :: fields)

/-- Embedding of process_schema (src/processing.rs lines 39-94). -/
def process_schema (schema_name : String) (definition : Schema)
    (filter : FilterConfig) : Except ProcError DataType :=
  match definition with
  | .ref _ => .error (.rootReference schema_name)
  | .typed _ _ _ _ properties required _ enum_items _ _ _ =>
    match properties with
    | some props =>
      match process_struct_fields schema_name props filter required with
      | .error e => .error e
      | .ok fields => .ok (.Struct schema_name fields)
    | none =>
      match enum_items with
      | some items => .ok (.Enum schema_name items)
      | none =>
        match process_schema_property schema_name "" definition true with
        | .error e => .error e
        | .ok info => .ok (.Alias schema_name info)

/-- Embedding of is_primitive_type (src/processing.rs). -/
def is_primitive_type (typename : String) : Bool :=
  typename == "string" || typename == "number" || typename == "boolean" ||
  typename == "integer" || typename == "array" || typename == "object"

/-- The inner loop of Vec::dedup: drop elements equal to the previous kept
element. -/
def dedup_adjacent_from (prev : String) (l : List String) : List String :=
  match l with
  | [] => []
  | b :: rest =>
    if b = prev then dedup_adjacent_from prev rest
    else b :: dedup_adjacent_from b rest

/-- Embedding of Vec::dedup: remove consecutive repeated elements, keeping the
first of each run. -/
def dedup_adjacent (l : List String) : List String :=
  match l with
  | [] => []
  | a :: rest => a :: dedup_adjacent_from a rest

/-- All type names referenced by a DataType, in scan order: struct fields in
order with each field's to_vec, an alias's to_vec, nothing for enums.  This is
the iteration order of both find_missing_schemas and find_dependend_schemas. -/
def datatype_ref_names (dt : DataType) : List String :=
  match dt with
  | .Enum _ _ => []
  | .Struct _ fields => fields.flatMap (fun f => f.type_.to_vec)
  | .Alias _ info => info.type_.to_vec

/-- Embedding of find_missing_schemas (src/processing.rs lines 224-261):
collect every referenced non-primitive name that matches no datatype name,
in scan order, then Vec::dedup the collected list. -/
def find_missing_schemas (datatypes : List DataType) : List String :=
  dedup_adjacent
    (datatypes.flatMap (fun dt =>
      (datatype_ref_names dt).filter (fun t =>
        !is_primitive_type t &&
        !datatypes.any (fun dt2 => dt2.schema_name == t))))

/-- The list of type names that find_dependend_schemas iterates for one
schema name: the referenced names of the schema's processed DataType, empty
when the name is absent from the map or its resolution fails (the if let Ok
of src/processing.rs line 278). -/
def dependency_candidates (spec : OpenApi) (filter : FilterConfig)
    (schema_name : String) : List String :=
  match mapGet spec.schemas schema_name with
  | none => []
  | some definition =>
    match process_schema schema_name definition filter with
    | .error _ => []
    | .ok dt => datatype_ref_names dt

/-- Every type name the dependency walk can ever push, over all map entries;
used only as the termination measure of the walk. -/
def all_dependency_names (spec : OpenApi) (filter : FilterConfig) : List String :=
  spec.schemas.flatMap (fun kv => dependency_candidates spec filter kv.1)

theorem mapGet_isSome_mem_keys {α : Type} {m : List (String × α)} {k : String}
    (h : (mapGet m k).isSome) : k ∈ m.map Prod.fst := by
  induction m with
  | nil => simp [mapGet] at h
  | cons kv rest ih =>
    rcases kv with ⟨k1, v1⟩
    by_cases hk : k1 = k
    · simp [hk]
    · simp only [mapGet, hk, if_neg, ite_false] at h
      simp [ih h]

theorem mem_all_dependency_names (spec : OpenApi) (filter : FilterConfig)
    (a : String) (hk : (mapGet spec.schemas a).isSome) :
    ∀ t ∈ dependency_candidates spec filter a,
      t ∈ all_dependency_names spec filter := by
  intro t ht
  have hmem := mapGet_isSome_mem_keys hk
  rcases List.mem_map.mp hmem with ⟨kv, hkv, hfst⟩
  apply List.mem_flatMap.mpr
  exact ⟨kv, hkv, by rw [hfst]; exact ht⟩

/-- Number of potential dependency names not yet collected; the termination
measure of the dependency walk. -/
def remaining (spec : OpenApi) (filter : FilterConfig)
    (dependencies : List String) : Nat :=
  ((all_dependency_names spec filter).filter
    (fun x => !decide (x ∈ dependencies))).length

theorem remaining_mono {spec : OpenApi} {filter : FilterConfig}
    {d1 d2 : List String} (h : ∀ x ∈ d1, x ∈ d2) :
    remaining spec filter d2 ≤ remaining spec filter d1 := by
  unfold remaining
  rw [show (all_dependency_names spec filter).filter (fun x => !decide (x ∈ d2))
      = ((all_dependency_names spec filter).filter
          (fun x => !decide (x ∈ d1))).filter (fun x => !decide (x ∈ d2)) from ?_]
  · exact List.length_filter_le _ _
  · rw [List.filter_filter]
    apply List.filter_congr
    intro x _
    by_cases hx : (!decide (x ∈ d2)) = true
    · have h1 : (!decide (x ∈ d1)) = true := by
        simp only [Bool.not_eq_true', decide_eq_false_iff_not] at hx ⊢
        exact fun hmem => hx (h x hmem)
      simp [hx, h1]
    · simp only [Bool.not_eq_true] at hx
      simp [hx]

theorem remaining_lt {spec : OpenApi} {filter : FilterConfig} {t : String}
    {deps : List String} (hN : t ∈ all_dependency_names spec filter)
    (hd : t ∉ deps) :
    remaining spec filter (deps ++ [t]) < remaining spec filter deps := by
  have hle : remaining spec filter (deps ++ [t]) ≤
      ((all_dependency_names spec filter).filter (fun x => !decide (x ∈ deps))
        |>.filter (fun x => !decide (x ∈ deps ++ [t]))).length := by
    unfold remaining
    rw [List.filter_filter]
    apply Nat.le_of_eq
    congr 1
    apply List.filter_congr
    intro x _
    by_cases hx : (decide (x ∈ deps ++ [t])) = true
    · simp only [hx]
      simp
    · have h1 : (decide (x ∈ deps)) = false := by
        simp only [List.mem_append, decide_eq_true_eq,
          decide_eq_false_iff_not] at hx ⊢
        exact fun hmem => hx (Or.inl hmem)
      simp [hx, h1]
  apply Nat.lt_of_le_of_lt hle
  apply List.length_filter_lt_length_iff_exists.mpr
  refine ⟨t, ?_, ?_⟩
  · simp only [List.mem_filter, Bool.not_eq_true', decide_eq_false_iff_not]
    exact ⟨hN, hd⟩
  · simp

mutual
/-- Embedding of find_dependend_schemas (src/processing.rs lines 271-309).
The Rust function mutates its dependencies Vec; here it returns the grown
list, together with the fact that it only grows (needed for termination: each
recursive descent first pushes a name that was not yet collected). -/
def find_dependend_schemas (spec : OpenApi) (filter : FilterConfig)
    (schema_name : String) (dependencies : List String) :
    { l : List String // ∀ x ∈ dependencies, x ∈ l } :=
  match hdef : mapGet spec.schemas schema_name with
  | none => ⟨dependencies, fun _ hx => hx⟩
  | some definition =>
    match hproc : process_schema schema_name definition filter with
    | .error _ => ⟨dependencies, fun _ hx => hx⟩
    | .ok dt =>
      visit_type_names spec filter (datatype_ref_names dt)
        (fun t ht =>
          mem_all_dependency_names spec filter schema_name
            (by rw [hdef]; rfl) t
            (by simpa [dependency_candidates, hdef, hproc] using ht))
        dependencies
termination_by (remaining spec filter dependencies, 1, 0)
decreasing_by
  apply Prod.Lex.right
  apply Prod.Lex.left
  omega

/-- The for t in field.type_.to_vec() loop of find_dependend_schemas:
primitive names are skipped, already-collected names are skipped, and a new
name is pushed and then recursively expanded before the loop continues. -/
def visit_type_names (spec : OpenApi) (filter : FilterConfig) (ts : List String)
    (hts : ∀ t ∈ ts, t ∈ all_dependency_names spec filter)
    (dependencies : List String) :
    { l : List String // ∀ x ∈ dependencies, x ∈ l } :=
  match ts with
  | [] => ⟨dependencies, fun _ hx => hx⟩
  | t :: rest =>
    if is_primitive_type t then
      visit_type_names spec filter rest
        (fun x hx => hts x (List.mem_cons_of_mem _ hx)) dependencies
    else if hmem : t ∈ dependencies then
      visit_type_names spec filter rest
        (fun x hx => hts x (List.mem_cons_of_mem _ hx)) dependencies
    else
      match find_dependend_schemas spec filter t (dependencies ++ [t]) with
      | ⟨deps2, hdeps2⟩ =>
        match visit_type_names spec filter rest
            (fun x hx => hts x (List.mem_cons_of_mem _ hx)) deps2 with
        | ⟨deps3, hdeps3⟩ =>
          ⟨deps3, fun x hx => hdeps3 x (hdeps2 x (by simp [hx]))⟩
termination_by (remaining spec filter dependencies, 0, ts.length)
decreasing_by
  · apply Prod.Lex.right
    apply Prod.Lex.right
    simp
  · apply Prod.Lex.right
    apply Prod.Lex.right
    simp
  · apply Prod.Lex.left
    exact remaining_lt (hts t (List.mem_cons_self t rest)) hmem
  · have h1 : remaining spec filter deps2 ≤ remaining spec filter (dependencies ++ [t]) :=
      remaining_mono (fun x hx => hdeps2 x hx)
    have h2 : remaining spec filter (dependencies ++ [t]) < remaining spec filter dependencies :=
      remaining_lt (hts t (List.mem_cons_self t rest)) hmem
    apply Prod.Lex.left
    omega
end

/-- The first loop of process_components (src/processing.rs lines 14-23):
process each accepted map entry in iteration order, and, when
auto_include_dependencies is set, grow the dependency work list. -/
def process_components_entries (spec : OpenApi) (filter : FilterConfig)
    (entries : List (String × Schema)) (datatypes : List DataType)
    (dependencies : List String) :
    Except ProcError (List DataType × List String) :=
  match entries with
  | [] => .ok (datatypes, dependencies)
  | (schema_name, definition) :: rest =>
    if !filter.is_schema_accepted schema_name then
      process_components_entries spec filter rest datatypes dependencies
    else
      match process_schema schema_name definition filter with
      | .error e => .error e
      | .ok datatype =>
        let deps2 :=
          if filter.auto_include_dependencies then
            (find_dependend_schemas spec filter schema_name dependencies).val
          else dependencies
        process_components_entries spec filter rest (datatypes ++ [datatype]) deps2

/-- The second loop of process_components (src/processing.rs lines 25-33):
each collected dependency not already produced and present in the map is
resolved, with a resolution error propagated by the question mark operator. -/
def process_dependencies (spec : OpenApi) (filter : FilterConfig)
    (dependencies : List String) (datatypes : List DataType) :
    Except ProcError (List DataType) :=
  match dependencies with
  | [] => .ok datatypes
  | schema_name :: rest =>
    if datatypes.any (fun dt => dt.schema_name == schema_name) then
      process_dependencies spec filter rest datatypes
    else
      match mapGet spec.schemas schema_name with
      | none => process_dependencies spec filter rest datatypes
      | some definition =>
        match process_schema schema_name definition filter with
        | .error e => .error e
        | .ok dt => process_dependencies spec filter rest (datatypes ++ [dt])

/-- Embedding of process_components (src/processing.rs lines 7-36). -/
def process_components (spec : OpenApi) (filter : FilterConfig) :
    Except ProcError (List DataType) :=
  match process_components_entries spec filter spec.schemas [] [] with
  | .error e => .error e
  | .ok (datatypes, dependencies) =>
    process_dependencies spec filter dependencies datatypes

example :
    process_schema_property "S" "p"
      (.typed "string" "" false "" none [] none none none none none) true =
    .ok { name := "p", type_ := .plain "string", type_format := "",
          array_dimensions := 0, is_nullable := false, descr := "" } := rfl

/-- Shorthand for a schema node holding only a reference. -/
def refSchema (target : String) : Schema := .ref ("#/components/schemas/" ++ target)

/-- Shorthand for a schema node holding only a primitive type keyword. -/
def primSchema (t : String) : Schema :=
  .typed t "" false "" none [] none none none none none

/-- Shorthand for an array-of-reference schema node. -/
def arrayOfRef (target : String) : Schema :=
  .typed "array" "" false "" none [] (some (refSchema target)) none none none none

/-- The Big/Medium/Small schema map of src/tests/auto_include_deps_test.rs. -/
def bigChainSpec : OpenApi :=
  { schemas :=
      [("Big", .typed "object" "" false ""
          (some [("mediums", arrayOfRef "Medium")]) [] none none none none none),
       ("Medium", .typed "object" "" false ""
          (some [("smalls", arrayOfRef "Small")]) [] none none none none none),
       ("Small", .typed "object" "" false ""
          (some [("someNumber", primSchema "number"),
                 ("someString", primSchema "string"),
                 ("someBool", primSchema "boolean")]) [] none none none none none)] }

/-- The filter of test_auto_include_deps: include Big fully and only
someString of Small, with auto_include_dependencies on. -/
def bigChainFilter : FilterConfig :=
  { include_ := some [("Big", .acceptAll "*"),
                      ("Small", .acceptSelected ["someString"])],
    exclude_ := none, struct_derives := [], enum_derives := [],
    auto_include_dependencies := true }

/-- The resolved DataType list of the Big/Medium/Small run: the accepted
roots Big and Small in map order, then the auto-included Medium. -/
def bigChainDatatypes : List DataType :=
  [.Struct "Big"
     [{ name := "mediums", type_ := .plain "Medium", type_format := "",
        array_dimensions := 1, is_nullable := false, descr := "" }],
   .Struct "Small"
     [{ name := "someString", type_ := .plain "string", type_format := "",
        array_dimensions := 0, is_nullable := true, descr := "" }],
   .Struct "Medium"
     [{ name := "smalls", type_ := .plain "Small", type_format := "",
        array_dimensions := 1, is_nullable := false, descr := "" }]]

theorem bigChain_process_eq :
    process_components bigChainSpec bigChainFilter = .ok bigChainDatatypes := by
  simp [process_components, process_components_entries, process_dependencies,
    find_dependend_schemas, visit_type_names, process_schema,
    process_struct_fields, process_schema_property, process_oneof_types,
    dependency_candidates, datatype_ref_names, mapGet, bigChainSpec,
    bigChainFilter, bigChainDatatypes, FilterConfig.is_schema_accepted,
    FilterConfig.is_property_accepted, FilterConfig.is_schema_present,
    mapContainsKey, SchemaFilter.is_accepted, refSchema, primSchema,
    arrayOfRef, stripSchemasPath, schemasPath, valid_property_name,
    is_primitive_type, DataType.schema_name, FieldType.to_vec]

/-- Embedding of FilterConfig::default (src/filter.rs): no include, no
exclude, default derive lists, auto_include_dependencies false. -/
def defaultFilterConfig : FilterConfig :=
  { include_ := none, exclude_ := none,
    struct_derives := ["Debug", "Clone", "Deserialize"],
    enum_derives := ["Debug", "Clone", "Copy", "PartialEq", "Eq", "PartialOrd",
                     "Ord", "Deserialize"],
    auto_include_dependencies := false }

/-!  Claim C1.  The Alert example of the spec and of
src/tests/optional_property_ref_in_component_test.rs: LogLevel is a string
enum, Alert has required [code] and properties code (string), log_level
($ref LogLevel), url (string).  In the parsed schema model the log_level
node, having a $ref key, deserializes to the reference variant (its
description is not part of that variant). -/

/-- The Alert schema node of the C1 example. -/
def alertSchema : Schema :=
  .typed "object" "" false "An alert"
    (some [("code", .typed "string" "" false "The error code" none [] none
              none none none none),
           ("log_level", refSchema "LogLevel"),
           ("url", .typed "string" "" false "Origin" none [] none none none
              none none)])
    ["code"] none none none none none

/-- Claim C1: the claim (with the spec and the repository's own test) says a
property absent from required is resolved nullable regardless of its shape,
in particular the $ref property log_level must come out nullable (emitted
wrapped in Option).  The code disagrees: the $ref branch of
process_schema_property returns is_nullable = false unconditionally, ignoring
required-ness, so Alert.log_level resolves to a non-nullable field even
though log_level is not in required.  This theorem evaluates the code at the
claim's own example and exhibits the non-nullable field; since the required
property code and the non-required primitive url behave as claimed, the
failure is specific to the reference (and oneOf) branches. -/
theorem C1_alert_log_level_not_nullable :
    process_schema "Alert" alertSchema defaultFilterConfig =
      .ok (.Struct "Alert"
        [{ name := "code", type_ := .plain "string", type_format := "",
           array_dimensions := 0, is_nullable := false,
           descr := "The error code" },
         { name := "log_level", type_ := .plain "LogLevel", type_format := "",
           array_dimensions := 0, is_nullable := false, descr := "" },
         { name := "url", type_ := .plain "string", type_format := "",
           array_dimensions := 0, is_nullable := true, descr := "Origin" }]) ∧
    ("log_level" ∈ (["code"] : List String)) = False := by
  constructor
  · rfl
  · simp

/-!  Claim C3: find_missing_schemas and duplicate removal. -/

/-- A datatypes list whose missing references M, N, M are non-adjacent. -/
def c3Datatypes : List DataType :=
  [.Struct "A"
     [{ name := "f1", type_ := .plain "M", type_format := "",
        array_dimensions := 0, is_nullable := false, descr := "" },
      { name := "f2", type_ := .plain "N", type_format := "",
        array_dimensions := 0, is_nullable := false, descr := "" },
      { name := "f3", type_ := .plain "M", type_format := "",
        array_dimensions := 0, is_nullable := false, descr := "" }]]

/-- Claim C3 counterexample: the claim says every missing name appears
exactly once in the result of find_missing_schemas even when referenced from
non-adjacent positions.  In the code the final Vec::dedup removes only
consecutive duplicates, so the non-adjacent references to the missing M
produce M twice. -/
theorem C3_counterexample :
    find_missing_schemas c3Datatypes = ["M", "N", "M"] ∧
    (find_missing_schemas c3Datatypes).count "M" = 2 := by
  constructor
  · rfl
  · rfl

theorem dedup_adjacent_from_subset (prev : String) (l : List String) :
    ∀ x ∈ dedup_adjacent_from prev l, x ∈ l := by
  induction l generalizing prev with
  | nil => intro x hx; simp [dedup_adjacent_from] at hx
  | cons b rest ih =>
    intro x hx
    simp only [dedup_adjacent_from] at hx
    by_cases hb : b = prev
    · simp only [hb, if_pos] at hx
      exact List.mem_cons_of_mem _ (ih prev x hx)
    · simp only [hb, if_neg, ite_false, List.mem_cons] at hx
      rcases hx with h | h
      · simp [h]
      · exact List.mem_cons_of_mem _ (ih b x h)

theorem mem_dedup_adjacent_from (prev : String) (l : List String) :
    ∀ x ∈ l, x = prev ∨ x ∈ dedup_adjacent_from prev l := by
  induction l generalizing prev with
  | nil => intro x hx; simp at hx
  | cons b rest ih =>
    intro x hx
    simp only [dedup_adjacent_from]
    rcases List.mem_cons.mp hx with h | h
    · by_cases hb : b = prev
      · left; rw [h, hb]
      · right; simp only [hb, if_neg, ite_false]
        simp [h]
    · by_cases hb : b = prev
      · simp only [hb, if_pos]
        exact ih prev x h
      · simp only [hb, if_neg, ite_false]
        rcases ih b x h with h2 | h2
        · right; simp [h2]
        · right; exact List.mem_cons_of_mem _ h2

theorem mem_dedup_adjacent (l : List String) (x : String) :
    x ∈ dedup_adjacent l ↔ x ∈ l := by
  cases l with
  | nil => simp [dedup_adjacent]
  | cons a rest =>
    simp only [dedup_adjacent, List.mem_cons]
    constructor
    · intro h
      rcases h with h | h
      · simp [h]
      · exact Or.inr (dedup_adjacent_from_subset a rest x h)
    · intro h
      rcases h with h | h
      · exact Or.inl h
      · rcases mem_dedup_adjacent_from a rest x h with h2 | h2
        · exact Or.inl h2
        · exact Or.inr h2

theorem chain_dedup_adjacent_from (prev : String) (l : List String) :
    (prev :: dedup_adjacent_from prev l).Chain' (· ≠ ·) := by
  induction l generalizing prev with
  | nil => simp [dedup_adjacent_from]
  | cons b rest ih =>
    simp only [dedup_adjacent_from]
    by_cases hb : b = prev
    · simp only [hb, if_pos]
      exact ih prev
    · simp only [hb, if_neg, ite_false]
      exact List.Chain'.cons (fun h => hb h.symm) (ih b)

theorem chain_dedup_adjacent (l : List String) :
    (dedup_adjacent l).Chain' (· ≠ ·) := by
  cases l with
  | nil => simp [dedup_adjacent]
  | cons a rest =>
    simp only [dedup_adjacent]
    exact chain_dedup_adjacent_from a rest

theorem mem_find_missing_schemas (datatypes : List DataType) (t : String) :
    t ∈ find_missing_schemas datatypes ↔
      (is_primitive_type t = false ∧
       (∃ dt ∈ datatypes, t ∈ datatype_ref_names dt) ∧
       ∀ dt ∈ datatypes, dt.schema_name ≠ t) := by
  rw [find_missing_schemas, mem_dedup_adjacent]
  simp only [List.mem_flatMap, List.mem_filter, Bool.and_eq_true,
    Bool.not_eq_true', List.any_eq_false, beq_iff_eq]
  constructor
  · rintro ⟨dt, hdt, hmem, hprim, hnone⟩
    exact ⟨hprim, ⟨dt, hdt, hmem⟩, fun dt2 h2 => hnone dt2 h2⟩
  · rintro ⟨hprim, ⟨dt, hdt, hmem⟩, hnone⟩
    exact ⟨dt, hdt, hmem, hprim, fun dt2 h2 => hnone dt2 h2⟩

/-- Claim C3 amended: find_missing_schemas returns exactly the non-primitive
referenced names matching no datatype name — membership is as the claim
states — but only consecutive duplicates are removed (Vec::dedup), so the
result has no two adjacent equal entries while the same missing name may
still occur more than once when its references are non-adjacent in the
scan. -/
theorem C3_missing_schemas_amended (datatypes : List DataType) (t : String) :
    (t ∈ find_missing_schemas datatypes ↔
      (is_primitive_type t = false ∧
       (∃ dt ∈ datatypes, t ∈ datatype_ref_names dt) ∧
       ∀ dt ∈ datatypes, dt.schema_name ≠ t)) ∧
    (find_missing_schemas datatypes).Chain' (· ≠ ·) :=
  ⟨mem_find_missing_schemas datatypes t, chain_dedup_adjacent _⟩

/-!  Claim C7: anyOf and oversized allOf rejection. -/

/-- Claim C7 counterexample: the claim says any property schema in which
anyOf is present fails with UnsupportedComposition wherever it occurs; but
the branches of process_schema_property are tried in order, and a node that
also has items takes the array branch and resolves successfully, silently
ignoring the anyOf key. -/
theorem C7_counterexample :
    process_schema_property "S" "p"
      (.typed "" "" false "" none [] (some (primSchema "string")) none none
        none (some [primSchema "number"])) true =
    .ok { name := "p", type_ := .plain "string", type_format := "",
          array_dimensions := 1, is_nullable := false, descr := "" } := rfl

/-- Claim C7 amended: anyOf fails with the UnsupportedComposition error
provided the property name is valid and none of properties, items, allOf,
oneOf is present (each of those branches takes precedence over the anyOf
check); allOf with more than one element fails with UnsupportedComposition
provided properties and items are absent. -/
theorem C7_unsupported_composition_amended
    (schema_name name schema_type format description : String)
    (nullable is_required : Bool) (required : List String)
    (enum_items : Option (List String))
    (hname : valid_property_name name = true) :
    (∀ any_list : List Schema,
      process_schema_property schema_name name
        (.typed schema_type format nullable description none required none
          enum_items none none (some any_list)) is_required =
      .error (.anyOfUnsupported schema_name name)) ∧
    (∀ (all_list : List Schema) (one_of any_of : Option (List Schema)),
      all_list.length > 1 →
      process_schema_property schema_name name
        (.typed schema_type format nullable description none required none
          enum_items (some all_list) one_of any_of) is_required =
      .error (.allOfTooMany schema_name name)) := by
  constructor
  · intro any_list
    simp [process_schema_property, hname]
  · intro all_list one_of any_of hlen
    unfold process_schema_property
    simp only [hname, Bool.not_true, if_neg, Bool.false_eq_true,
      not_false_iff, ite_false]
    rw [if_pos hlen]

theorem C7_unsupported_composition_amended_witness :
    valid_property_name "p" = true ∧
    process_schema_property "S" "p"
      (.typed "" "" false "" none [] none none none none
        (some [primSchema "number"])) true =
      .error (.anyOfUnsupported "S" "p") ∧
    process_schema_property "S" "p"
      (.typed "" "" false "" none [] none none
        (some [primSchema "number", primSchema "string"]) none none) true =
      .error (.allOfTooMany "S" "p") :=
  ⟨rfl,
   (C7_unsupported_composition_amended "S" "p" "" "" "" false true [] none
      rfl).1 [primSchema "number"],
   (C7_unsupported_composition_amended "S" "p" "" "" "" false true [] none
      rfl).2 [primSchema "number", primSchema "string"] none none
      (by decide)⟩

/-!  Claim C9: empty allOf reaches the unguarded indexing. -/

/-- Claim C9: a property schema whose allOf key is present with an empty list
passes the only length guard (which rejects just lists longer than one) and
then indexes the list's first element out of bounds.  In this total
embedding that panic is the distinguished allOfEmptyIndexPanic outcome,
distinct from every ordinary error construction site and from every ok
result: the unguarded-indexing branch is reachable. -/
theorem C9_allof_empty_panics
    (schema_name name schema_type format description : String)
    (nullable is_required : Bool) (required : List String)
    (enum_items : Option (List String)) (one_of any_of : Option (List Schema))
    (hname : valid_property_name name = true) :
    process_schema_property schema_name name
      (.typed schema_type format nullable description none required none
        enum_items (some []) one_of any_of) is_required =
    .error (.allOfEmptyIndexPanic schema_name name) := by
  simp [process_schema_property, hname]

theorem C9_allof_empty_panics_witness :
    valid_property_name "p" = true ∧
    process_schema_property "S" "p"
      (.typed "" "" false "" none [] none none (some []) none none) true =
      .error (.allOfEmptyIndexPanic "S" "p") :=
  ⟨rfl, C9_allof_empty_panics "S" "p" "" "" "" false true [] none none none rfl⟩

/-!  Claim C10: the untyped fallback drops the property name. -/

/-- Claim C10: for a property schema with no $ref, no properties, no items,
no allOf, no oneOf, no anyOf and an empty type keyword, the resolved field
has the empty string as its name — the property's own name is dropped — with
the sentinel type object and nullability nullable OR not-required. -/
theorem C10_untyped_fallback_drops_name
    (schema_name name format description : String)
    (nullable is_required : Bool) (required : List String)
    (enum_items : Option (List String))
    (hname : valid_property_name name = true) :
    process_schema_property schema_name name
      (.typed "" format nullable description none required none enum_items
        none none none) is_required =
    .ok { name := "", type_ := .plain "object", type_format := "",
          array_dimensions := 0, is_nullable := nullable || !is_required,
          descr := description } := by
  simp [process_schema_property, hname]

theorem C10_untyped_fallback_drops_name_witness :
    valid_property_name "anyValue" = true ∧
    process_schema_property "S" "anyValue"
      (.typed "" "" false "can be anything" none [] none none none none none)
      false =
      .ok { name := "", type_ := .plain "object", type_format := "",
            array_dimensions := 0, is_nullable := true, descr := "can be anything" } :=
  ⟨rfl, C10_untyped_fallback_drops_name "S" "anyValue" "" "can be anything"
    false false [] none rfl⟩

/-!  Claim C8: is_property_accepted and the unmentioned-schema bypass. -/

/-- A filter where include is set (listing only T), exclude is set (listing
S), and auto_include_dependencies is on. -/
def c8Filter : FilterConfig :=
  { include_ := some [("T", .acceptAll "*")],
    exclude_ := some [("S", .acceptAll "*")],
    struct_derives := [], enum_derives := [],
    auto_include_dependencies := true }

/-- Claim C8 counterexample: S appears in the exclude mapping, so by the
claim the unconditional-true case must not apply and, include being set with
S unlisted there, the claim demands false.  But is_schema_present never
consults exclude once include is set, so the code takes the
auto-include bypass and returns true. -/
theorem C8_counterexample :
    c8Filter.auto_include_dependencies = true ∧
    c8Filter.exclude_ = some [("S", .acceptAll "*")] ∧
    mapContainsKey [("S", SchemaFilter.acceptAll "*")] "S" = true ∧
    c8Filter.include_ = some [("T", .acceptAll "*")] ∧
    mapGet [("T", SchemaFilter.acceptAll "*")] "S" = none ∧
    c8Filter.is_property_accepted "S" "p" = true := by
  refine ⟨rfl, rfl, rfl, rfl, ?_, rfl⟩
  simp [mapGet]

/-- Claim C8 amended: the unconditional-true bypass applies when
auto_include_dependencies is on and is_schema_present is false — where
is_schema_present searches include alone whenever include is set, consulting
exclude only when include is unset — and otherwise the include verdict,
exclude negation, or default-true logic is exactly as claimed. -/
theorem C8_property_accepted_amended (f : FilterConfig) (s p : String) :
    (f.auto_include_dependencies = true → f.is_schema_present s = false →
      f.is_property_accepted s p = true) ∧
    (∀ m, f.include_ = some m →
      (f.auto_include_dependencies = false ∨ f.is_schema_present s = true) →
      f.is_property_accepted s p =
        (match mapGet m s with
         | some sel => sel.is_accepted p
         | none => false)) ∧
    (f.include_ = none → ∀ m, f.exclude_ = some m →
      (f.auto_include_dependencies = false ∨ f.is_schema_present s = true) →
      f.is_property_accepted s p =
        (match mapGet m s with
         | some sel => !sel.is_accepted p
         | none => true)) ∧
    (f.include_ = none → f.exclude_ = none → f.is_property_accepted s p = true) := by
  refine ⟨?_, ?_, ?_, ?_⟩
  · intro hauto hpres
    simp [FilterConfig.is_property_accepted, hauto, hpres]
  · intro m hm hcase
    rcases hcase with h | h <;>
      simp [FilterConfig.is_property_accepted, hm, h]
  · intro hinc m hm hcase
    rcases hcase with h | h <;>
      simp [FilterConfig.is_property_accepted, hinc, hm, h]
  · intro hinc hexc
    by_cases hauto : f.auto_include_dependencies <;>
      simp [FilterConfig.is_property_accepted, hinc, hexc, hauto]

theorem C8_property_accepted_amended_witness :
    c8Filter.include_ = some [("T", .acceptAll "*")] ∧
    (c8Filter.auto_include_dependencies = false ∨
      c8Filter.is_schema_present "T" = true) ∧
    c8Filter.is_property_accepted "T" "p" =
      (match mapGet [("T", SchemaFilter.acceptAll "*")] "T" with
       | some sel => sel.is_accepted "p"
       | none => false) :=
  ⟨rfl, Or.inr rfl,
   (C8_property_accepted_amended c8Filter "T" "p").2.1
     [("T", SchemaFilter.acceptAll "*")] rfl (Or.inr rfl)⟩

/-!  Claim C2: failing auto-included dependencies. -/

/-- A schema map where A (a struct referencing B) is accepted by the filter
and B, reachable only as a dependency, is a bare root reference, which
process_schema always rejects. -/
def c2Spec : OpenApi :=
  { schemas :=
      [("A", .typed "object" "" false ""
          (some [("b", refSchema "B")]) [] none none none none none),
       ("B", refSchema "Whatever")] }

/-- The C2 filter: include only A, with auto_include_dependencies on. -/
def c2Filter : FilterConfig :=
  { include_ := some [("A", .acceptAll "*")], exclude_ := none,
    struct_derives := [], enum_derives := [],
    auto_include_dependencies := true }

/-- Claim C2 counterexample: B is not filter-accepted, is reachable only
through automatic dependency inclusion, and its own resolution fails; the
claim says process_components still returns Ok with the successfully
resolved types.  In the code only the dependency discovery walk tolerates
the failure; the second loop of process_components resolves each collected
dependency with the question mark operator, so the whole run aborts with
B's resolution error instead of returning Ok. -/
theorem C2_counterexample :
    c2Filter.auto_include_dependencies = true ∧
    c2Filter.is_schema_accepted "B" = false ∧
    process_schema "B" (refSchema "Whatever") c2Filter =
      .error (.rootReference "B") ∧
    process_components c2Spec c2Filter = .error (.rootReference "B") := by
  refine ⟨rfl, rfl, rfl, ?_⟩
  simp [process_components, process_components_entries, process_dependencies,
    find_dependend_schemas, visit_type_names, process_schema,
    process_struct_fields, process_schema_property, process_oneof_types,
    dependency_candidates, datatype_ref_names, mapGet, c2Spec, c2Filter,
    FilterConfig.is_schema_accepted, FilterConfig.is_property_accepted,
    FilterConfig.is_schema_present, mapContainsKey, SchemaFilter.is_accepted,
    refSchema, stripSchemasPath, schemasPath, valid_property_name,
    is_primitive_type, DataType.schema_name, FieldType.to_vec]

theorem find_dependend_schemas_error_tolerant (spec : OpenApi)
    (filter : FilterConfig) (name : String) (deps : List String)
    (d : Schema) (e : ProcError) (hdef : mapGet spec.schemas name = some d)
    (hproc : process_schema name d filter = .error e) :
    (find_dependend_schemas spec filter name deps).val = deps := by
  unfold find_dependend_schemas
  split
  · rfl
  next d2 hdef2 =>
    have hd2 : d2 = d := by
      rw [hdef2] at hdef
      exact Option.some.inj hdef
    split
    · rfl
    next dt hproc2 =>
      rw [hd2, hproc] at hproc2
      exact absurd hproc2 (by simp)

theorem process_dependencies_propagates (spec : OpenApi)
    (filter : FilterConfig) (rest : List String) (datatypes : List DataType)
    (name : String) (d : Schema) (e : ProcError)
    (hnew : datatypes.any (fun dt => dt.schema_name == name) = false)
    (hdef : mapGet spec.schemas name = some d)
    (hproc : process_schema name d filter = .error e) :
    process_dependencies spec filter (name :: rest) datatypes = .error e := by
  unfold process_dependencies
  rw [hnew, hdef]
  simp [hproc]

/-- Claim C2 amended: resolution failures are tolerated only during the
dependency discovery walk — find_dependend_schemas leaves the work list
untouched for a schema whose own resolution fails, so its references are
never explored — while the resolution pass of process_components propagates
the error of any collected dependency that is present in the schema map,
not yet produced, and fails to resolve, aborting the run. -/
theorem C2_dependency_errors_amended :
    (∀ (spec : OpenApi) (filter : FilterConfig) (name : String)
        (deps : List String) (d : Schema) (e : ProcError),
      mapGet spec.schemas name = some d →
      process_schema name d filter = .error e →
      (find_dependend_schemas spec filter name deps).val = deps) ∧
    (∀ (spec : OpenApi) (filter : FilterConfig) (rest : List String)
        (datatypes : List DataType) (name : String) (d : Schema)
        (e : ProcError),
      datatypes.any (fun dt => dt.schema_name == name) = false →
      mapGet spec.schemas name = some d →
      process_schema name d filter = .error e →
      process_dependencies spec filter (name :: rest) datatypes = .error e) :=
  ⟨find_dependend_schemas_error_tolerant, process_dependencies_propagates⟩

theorem C2_dependency_errors_amended_witness :
    (find_dependend_schemas c2Spec c2Filter "B" ["Seen"]).val = ["Seen"] ∧
    process_dependencies c2Spec c2Filter ["B"] [] =
      .error (.rootReference "B") :=
  ⟨C2_dependency_errors_amended.1 c2Spec c2Filter "B" ["Seen"]
     (refSchema "Whatever") (.rootReference "B") rfl rfl,
   C2_dependency_errors_amended.2 c2Spec c2Filter [] [] "B"
     (refSchema "Whatever") (.rootReference "B") rfl rfl rfl⟩

/-!  Embedding of src/writing.rs.  The Rust emitter writes into a fmt::Write
sink and keeps a local helper_types Vec; here the writer returns the final
buffer together with the final helper_types list.  Identifier casing uses the
convert_case crate; the model below implements its default word boundaries
for ASCII input: the delimiters underscore, hyphen and space are dropped, a
lowercase-to-uppercase transition starts a new word, and an uppercase run
followed by lowercase splits before its last uppercase letter.  The crate's
letter/digit boundaries and non-ASCII case mapping are not modelled; no
theorem below depends on them. -/

/-- Delimiter characters removed by word splitting. -/
def isDelimChar (c : Char) : Bool := c == '_' || c == '-' || c == ' '

/-- Word splitting: cur is the current word, reversed (its head is the
previously consumed character). -/
def splitWordsAux (cur : List Char) (l : List Char) : List (List Char) :=
  match l with
  | [] => if cur = [] then [] else [cur.reverse]
  | c :: rest =>
    if isDelimChar c then
      if cur = [] then splitWordsAux [] rest
      else cur.reverse :: splitWordsAux [] rest
    else
      match cur with
      | [] => splitWordsAux [c] rest
      | p :: _ =>
        if (p.isLower && c.isUpper) ||
           (p.isUpper && c.isUpper &&
             (match rest with | n :: _ => n.isLower | [] => false)) then
          cur.reverse :: splitWordsAux [c] rest
        else
          splitWordsAux (c :: cur) rest

/-- One word in the Capitalized pattern: first char uppercased, rest
lowercased. -/
def capitalizeWord (w : List Char) : List Char :=
  match w with
  | [] => []
  | c :: rest => c.toUpper :: rest.map Char.toLower

/-- Model of to_case(Case::Pascal). -/
def toCasePascal (s : String) : String :=
  String.join ((splitWordsAux [] s.toList).map (fun w => String.mk (capitalizeWord w)))

/-- Model of Vec::join / slice::join with a separator. -/
def joinSep (sep : String) (l : List String) : String :=
  match l with
  | [] => ""
  | [x] => x
  | x :: rest => x ++ sep ++ joinSep sep rest

/-- Model of to_case(Case::Snake). -/
def toCaseSnake (s : String) : String :=
  joinSep "_" ((splitWordsAux [] s.toList).map (fun w => String.mk (w.map Char.toLower)))

/-- The Rust keywords of fix_rust_keyword (src/writing.rs lines 231-274). -/
def rust_keywords : List String :=
  ["as", "break", "const", "continue", "crate", "else", "enum", "extern",
   "false", "fn", "for", "if", "impl", "in", "let", "loop", "match", "mod",
   "move", "mut", "pub", "ref", "return", "self", "static", "struct", "super",
   "trait", "true", "type", "unsafe", "use", "where", "while", "async",
   "await", "dyn"]

/-- Embedding of fix_rust_keyword: append a trailing underscore when the name
is a Rust keyword. -/
def fix_rust_keyword (name : String) : String :=
  if name ∈ rust_keywords then name ++ "_" else name

/-- Embedding of get_rust_type (src/writing.rs lines 173-197). -/
def get_rust_type (typename format : String) : String :=
  if typename = "number" then
    if format = "float" then "f32" else "f64"
  else if typename = "boolean" then "bool"
  else if typename = "string" then
    if format = "date" then "time::Date"
    else if format = "date-time" then "time::OffsetDateTime"
    else "String"
  else if typename = "integer" then
    if format = "int32" then "i32"
    else if format = "int64" then "i64"
    else "i32"
  else if typename = "object" then "serde_json::Value"
  else toCasePascal typename

/-- Embedding of generate_union_name (src/writing.rs lines 201-203). -/
def generate_union_name (one_of : List String) : String :=
  "_Union" ++ toCasePascal (joinSep "Or" one_of)

/-- Escaping of one char by the Debug formatting used in
format!("{:?}", name) for serde rename values (quotes, backslashes and the
common control characters; other characters pass through unchanged). -/
def rustDebugChar (c : Char) : List Char :=
  if c = '"' then ['\\', '"']
  else if c = '\\' then ['\\', '\\']
  else if c = '\n' then ['\\', 'n']
  else if c = '\r' then ['\\', 'r']
  else if c = '\t' then ['\\', 't']
  else [c]

/-- Model of format!("{:?}", s) for a string. -/
def rustDebugStr (s : String) : String :=
  "\"" ++ String.mk (s.toList.flatMap rustDebugChar) ++ "\""

/-- ASCII whitespace, the model of char::is_whitespace in trim. -/
def isWhitespaceChar (c : Char) : Bool :=
  c == ' ' || c == '\t' || c == '\n' || c == '\r'

/-- Model of str::trim. -/
def trimString (s : String) : String :=
  String.mk (((s.toList.dropWhile isWhitespaceChar).reverse.dropWhile
    isWhitespaceChar).reverse)

/-- Splitting at newline characters; cur is the current line, reversed. -/
def splitLinesAux (cur : List Char) (l : List Char) : List (List Char) :=
  match l with
  | [] => [cur.reverse]
  | c :: rest =>
    if c = '\n' then cur.reverse :: splitLinesAux [] rest
    else splitLinesAux (c :: cur) rest

/-- Strip one trailing carriage return, as str::lines does per line. -/
def stripCarriage (l : List Char) : List Char :=
  match l.reverse with
  | '\r' :: rest => rest.reverse
  | _ => l

/-- Model of str::lines: empty input has no lines, a trailing newline does
not produce a final empty line, and a trailing carriage return is stripped
from each line. -/
def rustLines (s : String) : List String :=
  if s = "" then []
  else
    let parts := splitLinesAux [] s.toList
    let parts2 :=
      match parts.reverse with
      | [] :: front => front.reverse
      | _ => parts
    parts2.map (fun l => String.mk (stripCarriage l))

/-- The derive attribute line for structs (src/writing.rs lines 50-54),
also used for synthetic unions. -/
def struct_derive_line (struct_derives : Option (List String)) : String :=
  match struct_derives with
  | some derives => "#[derive(" ++ joinSep ", " derives ++ ")]\n"
  | none => "#[derive(Debug, Clone, Deserialize)]\n"

/-- The derive attribute line for enums (src/writing.rs lines 95-101). -/
def enum_derive_line (enum_derives : Option (List String)) : String :=
  match enum_derives with
  | some derives => "#[derive(" ++ joinSep ", " derives ++ ")]\n"
  | none =>
    "#[derive(Debug, Clone, Copy, PartialEq, Eq, PartialOrd, Ord, Deserialize)]\n"

/-- Embedding of write_union_type (src/writing.rs lines 206-227). -/
def write_union_type (one_of : List String)
    (struct_derives : Option (List String)) : String :=
  struct_derive_line struct_derives ++
  "#[serde(untagged)]\n" ++
  "pub enum " ++ generate_union_name one_of ++ " \x7b\n" ++
  String.join (one_of.map (fun t =>
    let name := toCasePascal t
    "    " ++ name ++ "(" ++ name ++ "),\n")) ++
  "\x7d\n\n"

/-- N-fold Vec<> wrapping of a type expression (the 0..array_dimensions
loop). -/
def wrap_vec (n : Nat) (t : String) : String :=
  match n with
  | 0 => t
  | n + 1 => wrap_vec n ("Vec<" ++ t ++ ">")

/-- The per-field text of the struct branch of write_rust_code
(src/writing.rs lines 56-90). -/
def render_struct_field (field : StructField) : String :=
  let rust_name := fix_rust_keyword (toCaseSnake field.name)
  let t0 :=
    match field.type_ with
    | .plain t => get_rust_type t field.type_format
    | .oneOf items => generate_union_name items
  let t1 := wrap_vec field.array_dimensions t0
  let t2 := if field.is_nullable then "Option<" ++ t1 ++ ">" else t1
  (if field.descr ≠ "" then
     String.join ((rustLines (trimString field.descr)).map (fun line =>
       "    /// " ++ trimString line ++ "\n"))
   else "") ++
  (if field.name ≠ rust_name then
     "    #[serde(rename = " ++ rustDebugStr field.name ++ ")]\n"
   else "") ++
  (if t2 = "time::OffsetDateTime" then
     "    #[serde(with = \"time::serde::iso8601\")]\n"
   else if t2 = "Option<time::OffsetDateTime>" then
     "    #[serde(with = \"time::serde::iso8601::option\", default)]\n"
   else "") ++
  "    pub " ++ rust_name ++ ": " ++ t2 ++ ",\n"

/-- The helper-generation loop at the top of the struct branch
(src/writing.rs lines 36-47): for each oneOf field, emit the synthetic union
once per generated name. -/
def union_helpers_for_fields (fields : List StructField)
    (struct_derives : Option (List String)) (acc : String × List String) :
    String × List String :=
  match fields with
  | [] => acc
  | f :: rest =>
    match f.type_ with
    | .plain _ => union_helpers_for_fields rest struct_derives acc
    | .oneOf items =>
      let name := generate_union_name items
      if name ∈ acc.2 then union_helpers_for_fields rest struct_derives acc
      else
        union_helpers_for_fields rest struct_derives
          (acc.1 ++ write_union_type items struct_derives, acc.2 ++ [name])

/-- The per-item text of the enum branch (src/writing.rs lines 104-112). -/
def render_enum_item (item : String) : String :=
  let rust_name := toCasePascal item
  (if rust_name ≠ item then
     "    #[serde(rename = " ++ rustDebugStr item ++ ")]\n"
   else "") ++
  "    " ++ rust_name ++ ",\n"

/-- Embedding of write_display_impl_for_enum (src/writing.rs lines 145-170)
for the enum case; each match arm writes the original, undistorted item. -/
def write_display_impl_for_enum (name : String) (items : List String) : String :=
  let enum_name := toCasePascal name
  "impl std::fmt::Display for " ++ enum_name ++ " \x7b\n" ++
  "    fn fmt(&self, f: &mut std::fmt::Formatter<\x27_>) -> std::fmt::Result \x7b\n" ++
  "        match self \x7b\n" ++
  String.join (items.map (fun item =>
    "            " ++ enum_name ++ "::" ++ toCasePascal item ++
    " => write!(f, \"" ++ item ++ "\"),\n")) ++
  "        \x7d\n" ++
  "    \x7d\n" ++
  "\x7d\n\n"

/-- The body of one iteration of the datatype loop of write_rust_code
(src/writing.rs lines 32-141): append this datatype's block (synthetic
unions first where applicable) to the output buffer and helper ledger. -/
def write_datatype_block (struct_derives enum_derives : Option (List String))
    (dt : DataType) (acc : String × List String) : String × List String :=
  match dt with
  | .Struct name fields =>
    let acc1 := union_helpers_for_fields fields struct_derives acc
    let text :=
      "/// " ++ name ++ "\n" ++
      struct_derive_line struct_derives ++
      "pub struct " ++ toCasePascal name ++ " \x7b\n" ++
      String.join (fields.map render_struct_field) ++
      "\x7d\n\n"
    (acc1.1 ++ text, acc1.2)
  | .Enum name items =>
    let text :=
      "/// " ++ name ++ "\n" ++
      enum_derive_line enum_derives ++
      "pub enum " ++ toCasePascal name ++ " \x7b\n" ++
      String.join (items.map render_enum_item) ++
      "\x7d\n\n" ++
      write_display_impl_for_enum name items
    (acc.1 ++ text, acc.2)
  | .Alias alias_ info =>
    let acc1 :=
      match info.type_ with
      | .plain _ => acc
      | .oneOf items =>
        let name := generate_union_name items
        if name ∈ acc.2 then acc
        else (acc.1 ++ write_union_type items struct_derives, acc.2 ++ [name])
    let t0 :=
      match info.type_ with
      | .plain t => get_rust_type t info.type_format
      | .oneOf items => generate_union_name items
    let t1 := wrap_vec info.array_dimensions t0
    let t2 := if info.is_nullable then "Option<" ++ t1 ++ ">" else t1
    let text :=
      "/// " ++ alias_ ++ "\n" ++
      "pub type " ++ toCasePascal alias_ ++ " = " ++ t2 ++ ";\n\n"
    (acc1.1 ++ text, acc1.2)

/-- The datatype loop of write_rust_code, threading the output buffer and
the helper_types list through write_datatype_block. -/
def write_rust_code_aux (struct_derives enum_derives : Option (List String))
    (datatypes : List DataType) (acc : String × List String) :
    String × List String :=
  match datatypes with
  | [] => acc
  | dt :: rest =>
    write_rust_code_aux struct_derives enum_derives rest
      (write_datatype_block struct_derives enum_derives dt acc)

/-- Embedding of write_rust_code (src/writing.rs lines 16-142): the use
declaration, a blank line, then one block per datatype with synthetic unions
emitted inline the first time each generated name is needed.  The returned
pair is the final buffer and the final helper_types list. -/
def write_rust_code (datatypes : List DataType)
    (struct_derives enum_derives : Option (List String)) :
    String × List String :=
  write_rust_code_aux struct_derives enum_derives datatypes
    ("use serde::Deserialize;\n\n", [])

/-- Embedding of write_comment_header (src/writing.rs lines 6-13). -/
def write_comment_header : String :=
  "//! # OpenApi Types\n//! GENERATED AUTOMATICALLY, ALL THE CHANGES\n" ++
  "//! YOU MAKE WILL BE REWRITTEN DURING\n//! THE NEXT BUILD\n\n"

/-- Top-level generation errors: a resolver error or the missing-schemas
check. -/
inductive GenError where
  | proc (e : ProcError)
  | missingSchemas (names : List String)
  deriving DecidableEq

/-- Modelled from the spec: the crate's current top-level entry point
generate_openapi_types is not under src/ (only its tests and an older
historical snapshot of it are), so its composition is taken from the spec:
resolve the components (process_components), abort on a resolver error,
abort with MissingSchemas when find_missing_schemas is non-empty before any
emission, then sort the resolved type list deterministically and each type's
members (DataType::sort_fields), and emit the fixed header followed by the
declarations, returning the complete output text. -/
def generate_openapi_types (spec : OpenApi) (config : FilterConfig) :
    Except GenError String :=
  match process_components spec config with
  | .error e => .error (.proc e)
  | .ok structs =>
    if find_missing_schemas structs ≠ [] then
      .error (.missingSchemas (find_missing_schemas structs))
    else
      .ok (write_comment_header ++
        (write_rust_code
          ((structs.insertionSort
            (fun a b => a.schema_name ≤ b.schema_name)).map
            DataType.sort_fields)
          (some config.struct_derives) (some config.enum_derives)).1)

example : generate_union_name ["First", "Second"] = "_UnionFirstOrSecond" := rfl

example : toCaseSnake "firstOrSecond" = "first_or_second" := rfl

example : toCasePascal "log_level" = "LogLevel" := rfl

example : fix_rust_keyword "type" = "type_" := rfl

example : toCasePascal "UNKNOWN" = "Unknown" := rfl

/-!  Claim C6: synthetic union deduplication. -/

/-- The ordered oneOf alternative lists occurring in a datatypes list, in
emission scan order: struct fields then alias targets. -/
def union_alternative_lists (datatypes : List DataType) : List (List String) :=
  datatypes.flatMap (fun dt =>
    match dt with
    | .Struct _ fields =>
      fields.filterMap (fun f =>
        match f.type_ with
        | .oneOf items => some items
        | .plain _ => none)
    | .Alias _ info =>
      (match info.type_ with
       | .oneOf items => [items]
       | .plain _ => [])
    | .Enum _ _ => [])

/-- Two structs whose oneOf alternative lists hold the same names in a
different order, but whose joined names collide. -/
def c6Datatypes : List DataType :=
  [.Struct "S"
     [{ name := "x", type_ := .oneOf ["Or", ""], type_format := "",
        array_dimensions := 0, is_nullable := false, descr := "" }],
   .Struct "T"
     [{ name := "y", type_ := .oneOf ["", "Or"], type_format := "",
        array_dimensions := 0, is_nullable := false, descr := "" }]]

/-- Claim C6 counterexample: the claim says two alternative lists with the
same names in a different order always produce two distinct synthetic
declarations with distinct names.  The derived name only concatenates the
alternatives with the connector Or, so the distinct ordered lists [Or, ""]
and ["", Or] both derive _UnionOrOr: the writer emits a single synthetic
declaration (one entry in its helper ledger), not two distinct ones. -/
theorem C6_counterexample :
    (["Or", ""] : List String) ≠ ["", "Or"] ∧
    (["Or", ""] : List String).Perm ["", "Or"] ∧
    generate_union_name ["Or", ""] = generate_union_name ["", "Or"] ∧
    (write_rust_code c6Datatypes none none).2 = ["_UnionOrOr"] := by
  refine ⟨by decide, ?_, rfl, rfl⟩
  decide

theorem union_helpers_fields_spec (fields : List StructField)
    (sd : Option (List String)) (acc : String × List String) :
    (∀ x ∈ acc.2, x ∈ (union_helpers_for_fields fields sd acc).2) ∧
    (acc.2.Nodup → (union_helpers_for_fields fields sd acc).2.Nodup) ∧
    (∀ f ∈ fields, ∀ items, f.type_ = .oneOf items →
      generate_union_name items ∈ (union_helpers_for_fields fields sd acc).2) := by
  induction fields generalizing acc with
  | nil =>
    refine ⟨fun x hx => hx, fun h => h, ?_⟩
    intro f hf
    simp at hf
  | cons f rest ih =>
    match hft : f.type_ with
    | .plain t =>
      refine ⟨?_, ?_, ?_⟩
      · intro x hx
        simp only [union_helpers_for_fields, hft]
        exact (ih acc).1 x hx
      · intro h
        simp only [union_helpers_for_fields, hft]
        exact (ih acc).2.1 h
      · intro g hg items hgi
        rcases List.mem_cons.mp hg with h | h
        · rw [h] at hgi
          rw [hft] at hgi
          exact absurd hgi (by simp)
        · simp only [union_helpers_for_fields, hft]
          exact (ih acc).2.2 g h items hgi
    | .oneOf items0 =>
      by_cases hmem : generate_union_name items0 ∈ acc.2
      · refine ⟨?_, ?_, ?_⟩
        · intro x hx
          simp only [union_helpers_for_fields, hft, hmem, if_pos]
          exact (ih acc).1 x hx
        · intro h
          simp only [union_helpers_for_fields, hft, hmem, if_pos]
          exact (ih acc).2.1 h
        · intro g hg items hgi
          simp only [union_helpers_for_fields, hft, hmem, if_pos]
          rcases List.mem_cons.mp hg with h | h
          · have : items = items0 := by
              rw [h] at hgi
              rw [hft] at hgi
              exact (FieldType.oneOf.inj hgi).symm
            rw [this]
            exact (ih acc).1 _ hmem
          · exact (ih acc).2.2 g h items hgi
      · set acc2 : String × List String :=
          (acc.1 ++ write_union_type items0 sd,
           acc.2 ++ [generate_union_name items0]) with hacc2
        refine ⟨?_, ?_, ?_⟩
        · intro x hx
          simp only [union_helpers_for_fields, hft, hmem, if_neg,
            not_false_iff, ite_false]
          exact (ih acc2).1 x (by simp [hacc2, hx])
        · intro h
          simp only [union_helpers_for_fields, hft, hmem, if_neg,
            not_false_iff, ite_false]
          apply (ih acc2).2.1
          simp [hacc2, List.nodup_append, h, hmem]
        · intro g hg items hgi
          simp only [union_helpers_for_fields, hft, hmem, if_neg,
            not_false_iff, ite_false]
          rcases List.mem_cons.mp hg with h | h
          · have : items = items0 := by
              rw [h] at hgi
              rw [hft] at hgi
              exact (FieldType.oneOf.inj hgi).symm
            rw [this]
            exact (ih acc2).1 _ (by simp [hacc2])
          · exact (ih acc2).2.2 g h items hgi

/-- The oneOf alternative lists of one DataType, in emission scan order. -/
def datatype_union_lists (dt : DataType) : List (List String) :=
  match dt with
  | .Struct _ fields =>
    fields.filterMap (fun f =>
      match f.type_ with
      | .oneOf items => some items
      | .plain _ => none)
  | .Alias _ info =>
    (match info.type_ with
     | .oneOf items => [items]
     | .plain _ => [])
  | .Enum _ _ => []

theorem union_alternative_lists_eq (datatypes : List DataType) :
    union_alternative_lists datatypes = datatypes.flatMap datatype_union_lists := by
  unfold union_alternative_lists datatype_union_lists
  rfl

theorem write_datatype_block_spec (sd ed : Option (List String))
    (dt : DataType) (acc : String × List String) :
    (∀ x ∈ acc.2, x ∈ (write_datatype_block sd ed dt acc).2) ∧
    (acc.2.Nodup → (write_datatype_block sd ed dt acc).2.Nodup) ∧
    (∀ items ∈ datatype_union_lists dt,
      generate_union_name items ∈ (write_datatype_block sd ed dt acc).2) := by
  match dt with
  | .Struct name fields =>
    have hA := union_helpers_fields_spec fields sd acc
    have h2 : (write_datatype_block sd ed (.Struct name fields) acc).2 =
        (union_helpers_for_fields fields sd acc).2 := rfl
    rw [h2]
    refine ⟨hA.1, hA.2.1, ?_⟩
    intro items hitems
    simp only [datatype_union_lists] at hitems
    rcases List.mem_filterMap.mp hitems with ⟨f, hf, hfi⟩
    have hft : f.type_ = .oneOf items := by
      cases hx : f.type_ with
      | plain t => rw [hx] at hfi; simp at hfi
      | oneOf its =>
        rw [hx] at hfi
        simp only [Option.some.injEq] at hfi
        rw [hfi]
    exact hA.2.2 f hf items hft
  | .Enum name items0 =>
    have h2 : (write_datatype_block sd ed (.Enum name items0) acc).2 = acc.2 := rfl
    rw [h2]
    refine ⟨fun x hx => hx, fun h => h, ?_⟩
    intro items hitems
    simp [datatype_union_lists] at hitems
  | .Alias alias_ info =>
    match hft : info.type_ with
    | .plain t =>
      have h2 : (write_datatype_block sd ed (.Alias alias_ info) acc).2 = acc.2 := by
        simp only [write_datatype_block, hft]
      rw [h2]
      refine ⟨fun x hx => hx, fun h => h, ?_⟩
      intro items hitems
      simp [datatype_union_lists, hft] at hitems
    | .oneOf items0 =>
      by_cases hmem : generate_union_name items0 ∈ acc.2
      · have h2 : (write_datatype_block sd ed (.Alias alias_ info) acc).2 = acc.2 := by
          simp only [write_datatype_block, hft, hmem, if_pos]
        rw [h2]
        refine ⟨fun x hx => hx, fun h => h, ?_⟩
        intro items hitems
        simp only [datatype_union_lists, hft, List.mem_singleton] at hitems
        rw [hitems]
        exact hmem
      · have h2 : (write_datatype_block sd ed (.Alias alias_ info) acc).2 =
            acc.2 ++ [generate_union_name items0] := by
          simp only [write_datatype_block, hft, hmem, if_neg, not_false_iff,
            ite_false]
        rw [h2]
        refine ⟨fun x hx => by simp [hx], ?_, ?_⟩
        · intro h
          simp [List.nodup_append, h, hmem]
        · intro items hitems
          simp only [datatype_union_lists, hft, List.mem_singleton] at hitems
          rw [hitems]
          simp

theorem write_rust_code_aux_spec (sd ed : Option (List String))
    (dts : List DataType) (acc : String × List String) :
    (∀ x ∈ acc.2, x ∈ (write_rust_code_aux sd ed dts acc).2) ∧
    (acc.2.Nodup → (write_rust_code_aux sd ed dts acc).2.Nodup) ∧
    (∀ items ∈ union_alternative_lists dts,
      generate_union_name items ∈ (write_rust_code_aux sd ed dts acc).2) := by
  induction dts generalizing acc with
  | nil =>
    refine ⟨fun x hx => hx, fun h => h, ?_⟩
    intro items h
    simp [union_alternative_lists] at h
  | cons dt rest ih =>
    have hB := write_datatype_block_spec sd ed dt acc
    have hstep : write_rust_code_aux sd ed (dt :: rest) acc =
        write_rust_code_aux sd ed rest (write_datatype_block sd ed dt acc) := rfl
    refine ⟨?_, ?_, ?_⟩
    · intro x hx
      rw [hstep]
      exact (ih _).1 x (hB.1 x hx)
    · intro h
      rw [hstep]
      exact (ih _).2.1 (hB.2.1 h)
    · intro items hitems
      rw [hstep, union_alternative_lists_eq] at *
      simp only [List.flatMap_cons, List.mem_append] at hitems
      rcases hitems with h | h
      · exact (ih _).1 _ (hB.2.2 items h)
      · exact (ih _).2.2 items h

/-- Claim C6 amended: synthetic union declarations are deduplicated by the
deterministically derived name — the helper ledger of write_rust_code never
holds a name twice (identical ordered alternative lists therefore share one
declaration referenced under one name, since the name is a function of the
ordered list), and every oneOf alternative list occurring in the emitted
datatypes has its derived name declared.  Differently ordered lists yield
two declarations only when their derived names differ; as the counterexample
shows, the joined names can collide, in which case the writer reuses the
single declaration. -/
theorem C6_union_synthesis_amended (datatypes : List DataType)
    (sd ed : Option (List String)) :
    (write_rust_code datatypes sd ed).2.Nodup ∧
    ∀ items ∈ union_alternative_lists datatypes,
      generate_union_name items ∈ (write_rust_code datatypes sd ed).2 := by
  have h := write_rust_code_aux_spec sd ed datatypes
    ("use serde::Deserialize;\n\n", [])
  exact ⟨(h.2.1 (by simp)), h.2.2⟩

theorem C6_union_synthesis_amended_witness :
    (write_rust_code c6Datatypes none none).2.Nodup ∧
    generate_union_name ["Or", ""] ∈ (write_rust_code c6Datatypes none none).2 :=
  ⟨(C6_union_synthesis_amended c6Datatypes none none).1,
   (C6_union_synthesis_amended c6Datatypes none none).2 ["Or", ""]
     (by decide)⟩

/-!  Dependency-closure reachability: the names the dependency walk is meant
to collect.  An edge goes from a schema name to each non-primitive type name
referenced by its resolved DataType (dependency_candidates); roots are the
filter-accepted schemas. -/

/-- Transitive reachability through resolved field references from some
filter-accepted root, as in the dependency-closure description of the spec. -/
inductive Reach (spec : OpenApi) (filter : FilterConfig) : String → Prop where
  | root (r t : String) :
      filter.is_schema_accepted r = true →
      t ∈ dependency_candidates spec filter r →
      is_primitive_type t = false →
      Reach spec filter t
  | step (s t : String) :
      Reach spec filter s →
      t ∈ dependency_candidates spec filter s →
      is_primitive_type t = false →
      Reach spec filter t

theorem mapGet_mem {α : Type} {m : List (String × α)} {k : String} {v : α}
    (h : mapGet m k = some v) : (k, v) ∈ m := by
  induction m with
  | nil => simp [mapGet] at h
  | cons kv rest ih =>
    rcases kv with ⟨k1, v1⟩
    by_cases hk : k1 = k
    · simp only [mapGet, hk, if_pos] at h
      simp [hk, Option.some.inj h]
    · simp only [mapGet, hk, if_neg, ite_false] at h
      exact List.mem_cons_of_mem _ (ih h)

theorem mapGet_of_mem_nodup {α : Type} {m : List (String × α)} {k : String}
    {v : α} (hk : (m.map Prod.fst).Nodup) (h : (k, v) ∈ m) :
    mapGet m k = some v := by
  induction m with
  | nil => simp at h
  | cons kv rest ih =>
    rcases kv with ⟨k1, v1⟩
    rcases List.mem_cons.mp h with h1 | h1
    · rw [Prod.mk.injEq] at h1
      simp [mapGet, h1.1.symm, h1.2]
    · have hk1 : k1 ≠ k := by
        intro he
        have : k ∈ rest.map Prod.fst := by
          apply List.mem_map.mpr
          exact ⟨(k, v), h1, rfl⟩
        rw [List.map_cons, List.nodup_cons] at hk
        exact hk.1 (he ▸ this)
      rw [List.map_cons, List.nodup_cons] at hk
      simp only [mapGet, hk1, if_neg, ite_false]
      exact ih hk.2 h1

/-- The resolved DataType of process_schema always carries the schema's
name. -/
theorem process_schema_name {schema_name : String} {definition : Schema}
    {filter : FilterConfig} {dt : DataType}
    (h : process_schema schema_name definition filter = .ok dt) :
    dt.schema_name = schema_name := by
  unfold process_schema at h
  split at h
  · exact absurd h (by simp)
  · split at h
    · split at h
      · exact absurd h (by simp)
      · rw [← Except.ok.inj h]
        rfl
    · split at h
      · rw [← Except.ok.inj h]
        rfl
      · split at h
        · exact absurd h (by simp)
        · rw [← Except.ok.inj h]
          rfl

theorem fds_val_none {spec : OpenApi} {filter : FilterConfig} {a : String}
    (deps : List String) (h : mapGet spec.schemas a = none) :
    (find_dependend_schemas spec filter a deps).val = deps := by
  unfold find_dependend_schemas
  split
  · rfl
  next d2 hdef2 => rw [h] at hdef2; exact absurd hdef2 (by simp)

theorem fds_val_ok {spec : OpenApi} {filter : FilterConfig} {a : String}
    {d : Schema} {dt : DataType} (deps : List String)
    (hdef : mapGet spec.schemas a = some d)
    (hproc : process_schema a d filter = .ok dt) :
    ∃ hts, (find_dependend_schemas spec filter a deps).val =
      (visit_type_names spec filter (datatype_ref_names dt) hts deps).val := by
  unfold find_dependend_schemas
  split
  next hdef2 => rw [hdef] at hdef2; exact absurd hdef2 (by simp)
  next d2 hdef2 =>
    have hd2 : d2 = d := by
      rw [hdef2] at hdef
      exact Option.some.inj hdef
    subst hd2
    split
    next e hproc2 => rw [hproc] at hproc2; exact absurd hproc2 (by simp)
    next dt2 hproc2 =>
      have hdt2 : dt2 = dt := by
        rw [hproc] at hproc2
        exact (Except.ok.inj hproc2).symm
      subst hdt2
      have hsome : (mapGet spec.schemas a).isSome := by rw [hdef]; rfl
      have hcand : dependency_candidates spec filter a = datatype_ref_names dt2 := by
        simp only [dependency_candidates, hdef, hproc]
      exact ⟨fun t ht =>
        mem_all_dependency_names spec filter a hsome t (by rw [hcand]; exact ht),
        rfl⟩

theorem visit_val_nil {spec : OpenApi} {filter : FilterConfig}
    {hts : ∀ t ∈ ([] : List String), t ∈ all_dependency_names spec filter}
    (deps : List String) :
    (visit_type_names spec filter [] hts deps).val = deps := by
  unfold visit_type_names
  rfl

theorem visit_val_skip {spec : OpenApi} {filter : FilterConfig} {t : String}
    {rest : List String}
    {hts : ∀ u ∈ t :: rest, u ∈ all_dependency_names spec filter}
    (deps : List String)
    (hcase : is_primitive_type t = true ∨ t ∈ deps) :
    (visit_type_names spec filter (t :: rest) hts deps).val =
      (visit_type_names spec filter rest
        (fun x hx => hts x (List.mem_cons_of_mem _ hx)) deps).val := by
  rw [visit_type_names.eq_def]
  rcases hcase with hprim | hmem
  · simp only [hprim, if_pos]
  · by_cases hprim : is_primitive_type t
    · simp only [hprim, if_pos]
    · simp only [hprim, Bool.false_eq_true, not_false_iff, if_neg, ite_false,
        hmem, dif_pos]

theorem visit_val_new {spec : OpenApi} {filter : FilterConfig} {t : String}
    {rest : List String}
    {hts : ∀ u ∈ t :: rest, u ∈ all_dependency_names spec filter}
    (deps : List String)
    (hprim : is_primitive_type t = false) (hmem : t ∉ deps) :
    (visit_type_names spec filter (t :: rest) hts deps).val =
      (visit_type_names spec filter rest
        (fun x hx => hts x (List.mem_cons_of_mem _ hx))
        (find_dependend_schemas spec filter t (deps ++ [t])).val).val := by
  rw [visit_type_names.eq_def]
  simp only [hprim, Bool.false_eq_true, not_false_iff, if_neg, ite_false,
    hmem, dif_neg]

theorem fds_closure_spec (spec : OpenApi) (filter : FilterConfig) :
    ∀ (a : String) (deps : List String),
      (deps.Nodup → (find_dependend_schemas spec filter a deps).val.Nodup) ∧
      (∀ u ∈ dependency_candidates spec filter a, is_primitive_type u = false →
        u ∈ (find_dependend_schemas spec filter a deps).val) ∧
      (∀ x ∈ (find_dependend_schemas spec filter a deps).val,
        x ∈ deps ∨
        ∀ u ∈ dependency_candidates spec filter x, is_primitive_type u = false →
          u ∈ (find_dependend_schemas spec filter a deps).val) ∧
      ((∀ u ∈ dependency_candidates spec filter a,
          is_primitive_type u = false → Reach spec filter u) →
       (∀ x ∈ deps, Reach spec filter x) →
       ∀ x ∈ (find_dependend_schemas spec filter a deps).val,
         Reach spec filter x) := by
  refine find_dependend_schemas.induct spec filter
    (fun a deps =>
      (deps.Nodup → (find_dependend_schemas spec filter a deps).val.Nodup) ∧
      (∀ u ∈ dependency_candidates spec filter a, is_primitive_type u = false →
        u ∈ (find_dependend_schemas spec filter a deps).val) ∧
      (∀ x ∈ (find_dependend_schemas spec filter a deps).val,
        x ∈ deps ∨
        ∀ u ∈ dependency_candidates spec filter x, is_primitive_type u = false →
          u ∈ (find_dependend_schemas spec filter a deps).val) ∧
      ((∀ u ∈ dependency_candidates spec filter a,
          is_primitive_type u = false → Reach spec filter u) →
       (∀ x ∈ deps, Reach spec filter x) →
       ∀ x ∈ (find_dependend_schemas spec filter a deps).val,
         Reach spec filter x))
    (fun ts hts deps =>
      (deps.Nodup → (visit_type_names spec filter ts hts deps).val.Nodup) ∧
      (∀ u ∈ ts, is_primitive_type u = false →
        u ∈ (visit_type_names spec filter ts hts deps).val) ∧
      (∀ x ∈ (visit_type_names spec filter ts hts deps).val,
        x ∈ deps ∨
        ∀ u ∈ dependency_candidates spec filter x, is_primitive_type u = false →
          u ∈ (visit_type_names spec filter ts hts deps).val) ∧
      ((∀ u ∈ ts, is_primitive_type u = false → Reach spec filter u) →
       (∀ x ∈ deps, Reach spec filter x) →
       ∀ x ∈ (visit_type_names spec filter ts hts deps).val,
         Reach spec filter x))
    ?_ ?_ ?_ ?_ ?_ ?_ ?_
  · -- map lookup fails
    intro a deps hdef
    rw [fds_val_none deps hdef]
    have hcand : dependency_candidates spec filter a = [] := by
      simp only [dependency_candidates, hdef]
    refine ⟨fun h => h, ?_, fun x hx => Or.inl hx, fun _ hdeps => hdeps⟩
    intro u hu
    rw [hcand] at hu
    simp at hu
  · -- resolution fails
    intro a deps d hdef e hproc
    rw [find_dependend_schemas_error_tolerant spec filter a deps d e hdef hproc]
    have hcand : dependency_candidates spec filter a = [] := by
      simp only [dependency_candidates, hdef, hproc]
    refine ⟨fun h => h, ?_, fun x hx => Or.inl hx, fun _ hdeps => hdeps⟩
    intro u hu
    rw [hcand] at hu
    simp at hu
  · -- resolution succeeds: defer to the loop over the referenced names
    intro a deps d hdef dt hproc ih
    rcases fds_val_ok deps hdef hproc with ⟨hts0, heq⟩
    have hcand : dependency_candidates spec filter a = datatype_ref_names dt := by
      simp only [dependency_candidates, hdef, hproc]
    rw [heq, hcand]
    exact ih
  · -- empty name list
    intro deps hts _
    rw [visit_val_nil deps]
    refine ⟨fun h => h, ?_, fun x hx => Or.inl hx, fun _ hdeps => hdeps⟩
    intro u hu
    simp at hu
  · -- primitive name: skipped
    intro deps t rest hts hprim _ ih
    rw [visit_val_skip deps (Or.inl hprim)]
    refine ⟨ih.1, ?_, ih.2.2.1, ?_⟩
    · intro u hu hup
      rcases List.mem_cons.mp hu with h | h
      · rw [h] at hup
        rw [hprim] at hup
        exact absurd hup (by simp)
      · exact ih.2.1 u h hup
    · intro hsrc hdeps
      exact ih.2.2.2 (fun u hu hup => hsrc u (List.mem_cons_of_mem _ hu) hup)
        hdeps
  · -- already collected: skipped
    intro deps t rest hts hprim hmem _ ih
    rw [visit_val_skip deps (Or.inr hmem)]
    refine ⟨ih.1, ?_, ih.2.2.1, ?_⟩
    · intro u hu hup
      rcases List.mem_cons.mp hu with h | h
      · rw [h]
        exact (visit_type_names spec filter rest
          (fun x hx => hts x (List.mem_cons_of_mem _ hx)) deps).property t hmem
      · exact ih.2.1 u h hup
    · intro hsrc hdeps
      exact ih.2.2.2 (fun u hu hup => hsrc u (List.mem_cons_of_mem _ hu) hup)
        hdeps
  · -- new name: push it and expand it, then continue the loop
    intro deps t rest hts hprim0 hmem deps2 hdeps2 hfds deps3 hdeps3 hvisit _
      ih1 ih2
    have hprim : is_primitive_type t = false := by
      simp only [Bool.not_eq_true] at hprim0
      exact hprim0
    have hval : (visit_type_names spec filter (t :: rest) hts deps).val = deps3 := by
      rw [visit_val_new deps hprim hmem, hfds]
      rw [hvisit]
    have hih1 :
        ((deps ++ [t]).Nodup → deps2.Nodup) ∧
        (∀ u ∈ dependency_candidates spec filter t,
          is_primitive_type u = false → u ∈ deps2) ∧
        (∀ x ∈ deps2, x ∈ deps ++ [t] ∨
          ∀ u ∈ dependency_candidates spec filter x,
            is_primitive_type u = false → u ∈ deps2) ∧
        ((∀ u ∈ dependency_candidates spec filter t,
            is_primitive_type u = false → Reach spec filter u) →
         (∀ x ∈ deps ++ [t], Reach spec filter x) →
         ∀ x ∈ deps2, Reach spec filter x) := by
      rw [hfds] at ih1
      exact ih1
    have hih2 :
        (deps2.Nodup → deps3.Nodup) ∧
        (∀ u ∈ rest, is_primitive_type u = false → u ∈ deps3) ∧
        (∀ x ∈ deps3, x ∈ deps2 ∨
          ∀ u ∈ dependency_candidates spec filter x,
            is_primitive_type u = false → u ∈ deps3) ∧
        ((∀ u ∈ rest, is_primitive_type u = false → Reach spec filter u) →
         (∀ x ∈ deps2, Reach spec filter x) →
         ∀ x ∈ deps3, Reach spec filter x) := by
      rw [hvisit] at ih2
      exact ih2
    rw [hval]
    refine ⟨?_, ?_, ?_, ?_⟩
    · intro hnd
      exact hih2.1 (hih1.1 (by simp [List.nodup_append, hnd, hmem]))
    · intro u hu hup
      rcases List.mem_cons.mp hu with h | h
      · rw [h]
        exact hdeps3 t (hdeps2 t (by simp))
      · exact hih2.2.1 u h hup
    · intro x hx
      rcases hih2.2.2.1 x hx with h2 | h2
      · rcases hih1.2.2.1 x h2 with h1 | h1
        · rcases List.mem_append.mp h1 with h0 | h0
          · exact Or.inl h0
          · right
            have hxt : x = t := by simpa using h0
            rw [hxt]
            intro u hu hup
            exact hdeps3 u (hih1.2.1 u hu hup)
        · right
          intro u hu hup
          exact hdeps3 u (h1 u hu hup)
      · exact Or.inr h2
    · intro hsrc hdeps
      have hReacht : Reach spec filter t :=
        hsrc t (List.mem_cons_self t rest) hprim
      have hdeps2R : ∀ x ∈ deps2, Reach spec filter x := by
        apply hih1.2.2.2
        · intro u hu hup
          exact Reach.step t u hReacht hu hup
        · intro x hx
          rcases List.mem_append.mp hx with h0 | h0
          · exact hdeps x h0
          · have hxt : x = t := by simpa using h0
            rw [hxt]
            exact hReacht
      exact hih2.2.2.2
        (fun u hu hup => hsrc u (List.mem_cons_of_mem _ hu) hup) hdeps2R

theorem phase1_spec (spec : OpenApi) (f : FilterConfig) :
    ∀ (entries : List (String × Schema)) (dts : List DataType)
      (deps : List String) (dts' : List DataType) (deps' : List String),
      process_components_entries spec f entries dts deps = .ok (dts', deps') →
      (dts'.map DataType.schema_name = dts.map DataType.schema_name ++
        (entries.filter (fun kv => f.is_schema_accepted kv.1)).map Prod.fst) ∧
      (∀ x ∈ deps, x ∈ deps') ∧
      (deps.Nodup → deps'.Nodup) ∧
      (∀ x ∈ deps', x ∈ deps ∨
        ∀ u ∈ dependency_candidates spec f x, is_primitive_type u = false →
          u ∈ deps') ∧
      (f.auto_include_dependencies = true →
        ∀ kv ∈ entries, f.is_schema_accepted kv.1 = true →
        ∀ u ∈ dependency_candidates spec f kv.1, is_primitive_type u = false →
          u ∈ deps') ∧
      ((∀ x ∈ deps, Reach spec f x) → ∀ x ∈ deps', Reach spec f x) ∧
      (∀ dt ∈ dts', dt ∈ dts ∨ ∃ kv ∈ entries,
        f.is_schema_accepted kv.1 = true ∧
        process_schema kv.1 kv.2 f = .ok dt) ∧
      (∀ kv ∈ entries, f.is_schema_accepted kv.1 = true →
        ∃ dt, process_schema kv.1 kv.2 f = .ok dt) := by
  intro entries
  induction entries with
  | nil =>
    intro dts deps dts' deps' h
    simp only [process_components_entries] at h
    have h2 := Except.ok.inj h
    rw [Prod.mk.injEq] at h2
    rw [← h2.1, ← h2.2]
    refine ⟨by simp, fun x hx => hx, fun h => h, fun x hx => Or.inl hx,
      ?_, fun h => h, fun dt hdt => Or.inl hdt, ?_⟩
    · intro _ kv hkv
      simp at hkv
    · intro kv hkv
      simp at hkv
  | cons kv rest ih =>
    rcases kv with ⟨k, d⟩
    intro dts deps dts' deps' h
    simp only [process_components_entries] at h
    by_cases hacc : f.is_schema_accepted k
    · simp only [hacc, Bool.not_true, Bool.false_eq_true, if_false, ite_false] at h
      split at h
      · exact absurd h (by simp)
      next dt hproc =>
        set deps2 : List String :=
          if f.auto_include_dependencies then
            (find_dependend_schemas spec f k deps).val
          else deps with hdeps2def
        have hrec := ih (dts ++ [dt]) deps2 dts' deps' h
        have hmono2 : ∀ x ∈ deps, x ∈ deps2 := by
          intro x hx
          rw [hdeps2def]
          by_cases hauto : f.auto_include_dependencies
          · simp only [hauto, if_pos]
            exact (find_dependend_schemas spec f k deps).property x hx
          · simp only [hauto, Bool.false_eq_true, if_neg, ite_false,
              not_false_iff]
            exact hx
        have hnodup2 : deps.Nodup → deps2.Nodup := by
          intro hnd
          rw [hdeps2def]
          by_cases hauto : f.auto_include_dependencies
          · simp only [hauto, if_pos]
            exact (fds_closure_spec spec f k deps).1 hnd
          · simp only [hauto, Bool.false_eq_true, if_neg, ite_false,
              not_false_iff]
            exact hnd
        have hclosed2 : ∀ x ∈ deps2, x ∈ deps ∨
            ∀ u ∈ dependency_candidates spec f x,
              is_primitive_type u = false → u ∈ deps2 := by
          intro x hx
          rw [hdeps2def] at hx ⊢
          by_cases hauto : f.auto_include_dependencies
          · simp only [hauto, if_pos] at hx ⊢
            exact (fds_closure_spec spec f k deps).2.2.1 x hx
          · simp only [hauto, Bool.false_eq_true, if_neg, ite_false,
              not_false_iff] at hx ⊢
            exact Or.inl hx
        have hsound2 : (∀ x ∈ deps, Reach spec f x) →
            ∀ x ∈ deps2, Reach spec f x := by
          intro hdeps x hx
          rw [hdeps2def] at hx
          by_cases hauto : f.auto_include_dependencies
          · simp only [hauto, if_pos] at hx
            refine (fds_closure_spec spec f k deps).2.2.2 ?_ hdeps x hx
            intro u hu hup
            exact Reach.root k u hacc hu hup
          · simp only [hauto, Bool.false_eq_true, if_neg, ite_false,
              not_false_iff] at hx
            exact hdeps x hx
        refine ⟨?_, ?_, ?_, ?_, ?_, ?_, ?_, ?_⟩
        · rw [hrec.1]
          have hname : dt.schema_name = k := process_schema_name hproc
          simp [hacc, hname]
        · intro x hx
          exact hrec.2.1 x (hmono2 x hx)
        · intro hnd
          exact hrec.2.2.1 (hnodup2 hnd)
        · intro x hx
          rcases hrec.2.2.2.1 x hx with h2 | h2
          · rcases hclosed2 x h2 with h3 | h3
            · exact Or.inl h3
            · right
              intro u hu hup
              exact hrec.2.1 u (h3 u hu hup)
          · exact Or.inr h2
        · intro hauto kv2 hkv2 hacc2
          rcases List.mem_cons.mp hkv2 with h2 | h2
          · intro u hu hup
            have hk2 : kv2.1 = k := by rw [h2]
            rw [hk2] at hu
            apply hrec.2.1
            rw [hdeps2def]
            simp only [hauto, if_pos]
            exact (fds_closure_spec spec f k deps).2.1 u hu hup
          · exact hrec.2.2.2.2.1 hauto kv2 h2 hacc2
        · intro hdeps
          exact hrec.2.2.2.2.2.1 (hsound2 hdeps)
        · intro dt2 hdt2
          rcases hrec.2.2.2.2.2.2.1 dt2 hdt2 with h2 | h2
          · rcases List.mem_append.mp h2 with h3 | h3
            · exact Or.inl h3
            · right
              have hdt : dt2 = dt := by simpa using h3
              exact ⟨(k, d), by simp, hacc, by rw [hdt]; exact hproc⟩
          · rcases h2 with ⟨kv2, hkv2, hx⟩
            exact Or.inr ⟨kv2, List.mem_cons_of_mem _ hkv2, hx⟩
        · intro kv2 hkv2 hacc2
          rcases List.mem_cons.mp hkv2 with h2 | h2
          · rw [h2]
            exact ⟨dt, hproc⟩
          · exact hrec.2.2.2.2.2.2.2 kv2 h2 hacc2
    · simp only [hacc, Bool.not_false, if_true, Bool.false_eq_true,
        ite_false, Bool.not_eq_true] at h
      have hrec := ih dts deps dts' deps'
        (by
          rcases hb : f.is_schema_accepted k with _ | _
          · simpa [hb] using h
          · exact absurd hb (by simpa using hacc))
      refine ⟨?_, hrec.2.1, hrec.2.2.1, hrec.2.2.2.1, ?_, hrec.2.2.2.2.2.1,
        ?_, ?_⟩
      · rw [hrec.1]
        have hb : f.is_schema_accepted k = false := by simpa using hacc
        simp [hb]
      · intro hauto kv2 hkv2 hacc2
        rcases List.mem_cons.mp hkv2 with h2 | h2
        · exfalso
          apply hacc
          rw [h2] at hacc2
          simpa using hacc2
        · exact hrec.2.2.2.2.1 hauto kv2 h2 hacc2
      · intro dt2 hdt2
        rcases hrec.2.2.2.2.2.2.1 dt2 hdt2 with h2 | h2
        · exact Or.inl h2
        · rcases h2 with ⟨kv2, hkv2, hx⟩
          exact Or.inr ⟨kv2, List.mem_cons_of_mem _ hkv2, hx⟩
      · intro kv2 hkv2 hacc2
        rcases List.mem_cons.mp hkv2 with h2 | h2
        · exfalso
          apply hacc
          rw [h2] at hacc2
          simpa using hacc2
        · exact hrec.2.2.2.2.2.2.2 kv2 h2 hacc2

theorem phase2_spec (spec : OpenApi) (f : FilterConfig) :
    ∀ (deps : List String) (dts : List DataType) (out : List DataType),
      process_dependencies spec f deps dts = .ok out →
      (∀ dt ∈ dts, dt ∈ out) ∧
      (∀ dt ∈ out, dt ∈ dts ∨ ∃ d,
        mapGet spec.schemas dt.schema_name = some d ∧
        process_schema dt.schema_name d f = .ok dt) ∧
      (∀ n, n ∈ out.map DataType.schema_name →
        n ∈ dts.map DataType.schema_name ∨ n ∈ deps) ∧
      (∀ n ∈ deps, (mapGet spec.schemas n).isSome →
        n ∈ out.map DataType.schema_name) ∧
      ((dts.map DataType.schema_name).Nodup →
        (out.map DataType.schema_name).Nodup) := by
  intro deps
  induction deps with
  | nil =>
    intro dts out h
    simp only [process_dependencies] at h
    have h2 := Except.ok.inj h
    rw [← h2]
    refine ⟨fun dt hdt => hdt, fun dt hdt => Or.inl hdt, ?_, ?_, fun h => h⟩
    · intro n hn
      exact Or.inl hn
    · intro n hn
      simp at hn
  | cons t rest ih =>
    intro dts out h
    simp only [process_dependencies] at h
    by_cases hpresent : dts.any (fun dt => dt.schema_name == t)
    · simp only [hpresent, if_pos] at h
      have hrec := ih dts out h
      refine ⟨hrec.1, hrec.2.1, ?_, ?_, hrec.2.2.2.2⟩
      · intro n hn
        rcases hrec.2.2.1 n hn with h2 | h2
        · exact Or.inl h2
        · exact Or.inr (List.mem_cons_of_mem _ h2)
      · intro n hn hsome
        rcases List.mem_cons.mp hn with h2 | h2
        · rcases List.any_eq_true.mp hpresent with ⟨dt, hdt, hbeq⟩
          have hname : dt.schema_name = t := by simpa using hbeq
          apply List.mem_map.mpr
          exact ⟨dt, hrec.1 dt hdt, by rw [hname, h2]⟩
        · exact hrec.2.2.2.1 n h2 hsome
    · simp only [hpresent, Bool.false_eq_true, if_neg, ite_false,
        not_false_iff] at h
      split at h
      next hdef =>
        have hrec := ih dts out h
        refine ⟨hrec.1, hrec.2.1, ?_, ?_, hrec.2.2.2.2⟩
        · intro n hn
          rcases hrec.2.2.1 n hn with h2 | h2
          · exact Or.inl h2
          · exact Or.inr (List.mem_cons_of_mem _ h2)
        · intro n hn hsome
          rcases List.mem_cons.mp hn with h2 | h2
          · rw [h2] at hsome
            rw [hdef] at hsome
            simp at hsome
          · exact hrec.2.2.2.1 n h2 hsome
      next d hdef =>
        split at h
        · exact absurd h (by simp)
        next dt hproc =>
          have hrec := ih (dts ++ [dt]) out h
          have hname : dt.schema_name = t := process_schema_name hproc
          refine ⟨?_, ?_, ?_, ?_, ?_⟩
          · intro dt2 hdt2
            exact hrec.1 dt2 (List.mem_append.mpr (Or.inl hdt2))
          · intro dt2 hdt2
            rcases hrec.2.1 dt2 hdt2 with h2 | h2
            · rcases List.mem_append.mp h2 with h3 | h3
              · exact Or.inl h3
              · right
                have hdt : dt2 = dt := by simpa using h3
                rw [hdt, hname]
                exact ⟨d, hdef, hproc⟩
            · exact Or.inr h2
          · intro n hn
            rcases hrec.2.2.1 n hn with h2 | h2
            · rw [List.map_append] at h2
              rcases List.mem_append.mp h2 with h3 | h3
              · exact Or.inl h3
              · right
                have : n = t := by simpa [hname] using h3
                simp [this]
            · exact Or.inr (List.mem_cons_of_mem _ h2)
          · intro n hn hsome
            rcases List.mem_cons.mp hn with h2 | h2
            · apply List.mem_map.mpr
              exact ⟨dt, hrec.1 dt (by simp), by rw [hname, h2]⟩
            · exact hrec.2.2.2.1 n h2 hsome
          · intro hnd
            apply hrec.2.2.2.2
            rw [List.map_append]
            have hnotin : t ∉ dts.map DataType.schema_name := by
              intro hmem
              apply hpresent
              rcases List.mem_map.mp hmem with ⟨dt2, hdt2, hdtname⟩
              apply List.any_eq_true.mpr
              exact ⟨dt2, hdt2, by simp [hdtname]⟩
            simp [List.nodup_append, hnd, hname, hnotin]

theorem phase2_ok (spec : OpenApi) (f : FilterConfig) :
    ∀ (deps : List String) (dts : List DataType),
      (∀ t ∈ deps, ∀ d, mapGet spec.schemas t = some d →
        ∃ dt2, process_schema t d f = .ok dt2) →
      ∃ out, process_dependencies spec f deps dts = .ok out := by
  intro deps
  induction deps with
  | nil =>
    intro dts _
    exact ⟨dts, rfl⟩
  | cons t rest ih =>
    intro dts hok
    simp only [process_dependencies]
    by_cases hpresent : dts.any (fun dt => dt.schema_name == t)
    · simp only [hpresent, if_pos]
      exact ih dts (fun u hu => hok u (List.mem_cons_of_mem _ hu))
    · simp only [hpresent, Bool.false_eq_true, if_neg, ite_false,
        not_false_iff]
      rcases hdef : mapGet spec.schemas t with _ | d
      · exact ih dts (fun u hu => hok u (List.mem_cons_of_mem _ hu))
      · rcases hok t (by simp) d hdef with ⟨dt2, hproc⟩
        simp only [hproc]
        exact ih (dts ++ [dt2]) (fun u hu => hok u (List.mem_cons_of_mem _ hu))

theorem phase1_ok (spec : OpenApi) (f : FilterConfig) :
    ∀ (entries : List (String × Schema)) (dts : List DataType)
      (deps : List String),
      (∀ kv ∈ entries, f.is_schema_accepted kv.1 = true →
        ∃ dt, process_schema kv.1 kv.2 f = .ok dt) →
      ∃ res, process_components_entries spec f entries dts deps = .ok res := by
  intro entries
  induction entries with
  | nil =>
    intro dts deps _
    exact ⟨(dts, deps), rfl⟩
  | cons kv rest ih =>
    rcases kv with ⟨k, d⟩
    intro dts deps hok
    simp only [process_components_entries]
    by_cases hacc : f.is_schema_accepted k
    · simp only [hacc, Bool.not_true, Bool.false_eq_true, if_false, ite_false]
      rcases hok (k, d) (by simp) (by simpa using hacc) with ⟨dt, hproc⟩
      rw [hproc]
      exact ih (dts ++ [dt]) _ (fun kv2 hkv2 => hok kv2 (List.mem_cons_of_mem _ hkv2))
    · have hb : f.is_schema_accepted k = false := by simpa using hacc
      simp only [hb, Bool.not_false, if_true]
      exact ih dts deps (fun kv2 hkv2 => hok kv2 (List.mem_cons_of_mem _ hkv2))

/-- Claim C5: with auto_include_dependencies on, every non-primitive schema
name transitively reachable through resolved field references from a
filter-accepted root and present in the schema map appears exactly once in
a successfully resolved DataType list, and no name in the list is
duplicated.  (The schema map, being a HashMap, has pairwise-distinct
keys: hypothesis hkeys.) -/
theorem C5_auto_include_closure
    (spec : OpenApi) (filter : FilterConfig) (l : List DataType) (t : String)
    (hkeys : (spec.schemas.map Prod.fst).Nodup)
    (hauto : filter.auto_include_dependencies = true)
    (hok : process_components spec filter = .ok l)
    (hreach : Reach spec filter t)
    (hmem : (mapGet spec.schemas t).isSome) :
    (l.map DataType.schema_name).Nodup ∧
    (l.map DataType.schema_name).count t = 1 := by
  unfold process_components at hok
  split at hok
  · exact absurd hok (by simp)
  next dts1 deps1 hphase1 =>
    have hp1 := phase1_spec spec filter spec.schemas [] [] dts1 deps1 hphase1
    have hp2 := phase2_spec spec filter deps1 dts1 l hok
    have hcomplete : ∀ u, Reach spec filter u → u ∈ deps1 := by
      intro u hu
      induction hu with
      | root r u2 hacc hcand hprim =>
        rcases hdef : mapGet spec.schemas r with _ | d0
        · simp only [dependency_candidates, hdef] at hcand
          simp at hcand
        · exact hp1.2.2.2.2.1 hauto (r, d0) (mapGet_mem hdef)
            (by simpa using hacc) u2 hcand hprim
      | step s u2 hs hcand hprim ihs =>
        rcases hp1.2.2.2.1 s ihs with h2 | h2
        · simp at h2
        · exact h2 u2 hcand hprim
    have hnames1 : (dts1.map DataType.schema_name).Nodup := by
      rw [hp1.1]
      have hsub : ((spec.schemas.filter
          (fun kv => filter.is_schema_accepted kv.1)).map Prod.fst).Sublist
          (spec.schemas.map Prod.fst) :=
        (List.filter_sublist _).map _
      simpa using hkeys.sublist hsub
    have houtnodup := hp2.2.2.2.2 hnames1
    have htout : t ∈ l.map DataType.schema_name :=
      hp2.2.2.2.1 t (hcomplete t hreach) hmem
    exact ⟨houtnodup, List.count_eq_one_of_mem houtnodup htout⟩

theorem C5_auto_include_closure_witness :
    (bigChainDatatypes.map DataType.schema_name).Nodup ∧
    (bigChainDatatypes.map DataType.schema_name).count "Medium" = 1 :=
  C5_auto_include_closure bigChainSpec bigChainFilter bigChainDatatypes
    "Medium" (by decide) rfl bigChain_process_eq
    (Reach.root "Big" "Medium" rfl
      (by
        rw [show dependency_candidates bigChainSpec bigChainFilter "Big" =
          ["Medium"] from rfl]
        simp)
      rfl)
    rfl

/-!  Claim C4 machinery: invariance of the pipeline under a permutation of
the schemas map (the iteration order of the components HashMap). -/

theorem mapGet_isSome_of_mem_keys {α : Type} {m : List (String × α)}
    {k : String} (h : k ∈ m.map Prod.fst) : (mapGet m k).isSome := by
  induction m with
  | nil => simp at h
  | cons kv rest ih =>
    rcases kv with ⟨k1, v1⟩
    by_cases hk : k1 = k
    · simp [mapGet, hk]
    · simp only [mapGet, hk, if_neg, ite_false]
      apply ih
      rcases List.mem_map.mp h with ⟨kv2, hkv2, hfst⟩
      rcases List.mem_cons.mp hkv2 with h2 | h2
      · exfalso
        apply hk
        rw [h2] at hfst
        exact hfst
      · exact List.mem_map.mpr ⟨kv2, h2, hfst⟩

theorem mapGet_perm {α : Type} {m1 m2 : List (String × α)} (hperm : m1.Perm m2)
    (hk : (m1.map Prod.fst).Nodup) : ∀ k, mapGet m1 k = mapGet m2 k := by
  intro k
  rcases h1 : mapGet m1 k with _ | v1
  · rcases h2 : mapGet m2 k with _ | v2
    · rfl
    · exfalso
      have hmem := mapGet_isSome_mem_keys (by rw [h2]; rfl)
      have hmem1 : k ∈ m1.map Prod.fst := by
        rcases List.mem_map.mp hmem with ⟨kv, hkv, hfst⟩
        exact List.mem_map.mpr ⟨kv, hperm.mem_iff.mpr hkv, hfst⟩
      have := mapGet_isSome_of_mem_keys hmem1
      rw [h1] at this
      simp at this
  · have hmem : (k, v1) ∈ m1 := mapGet_mem h1
    have hk2 : (m2.map Prod.fst).Nodup := ((hperm.map Prod.fst).nodup_iff).mp hk
    rw [mapGet_of_mem_nodup hk2 (hperm.mem_iff.mp hmem)]

theorem dependency_candidates_ext {spec1 spec2 : OpenApi} {f : FilterConfig}
    (hlookup : ∀ k, mapGet spec1.schemas k = mapGet spec2.schemas k)
    (a : String) :
    dependency_candidates spec1 f a = dependency_candidates spec2 f a := by
  unfold dependency_candidates
  rw [hlookup a]

theorem Reach_ext {spec1 spec2 : OpenApi} {f : FilterConfig}
    (hlookup : ∀ k, mapGet spec1.schemas k = mapGet spec2.schemas k)
    {t : String} (h : Reach spec1 f t) : Reach spec2 f t := by
  induction h with
  | root r u hacc hcand hprim =>
    exact Reach.root r u hacc
      (by rw [← dependency_candidates_ext hlookup]; exact hcand) hprim
  | step s u _ hcand hprim ih =>
    exact Reach.step s u ih
      (by rw [← dependency_candidates_ext hlookup]; exact hcand) hprim

theorem phase1_no_auto (spec : OpenApi) (f : FilterConfig)
    (hauto : f.auto_include_dependencies = false) :
    ∀ (entries : List (String × Schema)) (dts : List DataType)
      (deps : List String) (res : List DataType × List String),
      process_components_entries spec f entries dts deps = .ok res →
      res.2 = deps := by
  intro entries
  induction entries with
  | nil =>
    intro dts deps res h
    simp only [process_components_entries] at h
    rw [← Except.ok.inj h]
  | cons kv rest ih =>
    rcases kv with ⟨k, d⟩
    intro dts deps res h
    simp only [process_components_entries] at h
    by_cases hacc : f.is_schema_accepted k
    · simp only [hacc, Bool.not_true, Bool.false_eq_true, if_false,
        ite_false] at h
      split at h
      · exact absurd h (by simp)
      next dt hproc =>
        simp only [hauto, Bool.false_eq_true, if_neg, ite_false,
          not_false_iff] at h
        exact ih _ _ _ h
    · have hb : f.is_schema_accepted k = false := by simpa using hacc
      simp only [hb, Bool.not_false, if_true] at h
      exact ih _ _ _ h

/-- The DataType a name resolves to in a run, when its schema is present and
resolves: the element of the output list is a function of its name. -/
def resolved_for (spec : OpenApi) (f : FilterConfig) (n : String) :
    Option DataType :=
  match mapGet spec.schemas n with
  | none => none
  | some d =>
    match process_schema n d f with
    | .error _ => none
    | .ok dt => some dt

theorem resolved_for_ext {spec1 spec2 : OpenApi} {f : FilterConfig}
    (hlookup : ∀ k, mapGet spec1.schemas k = mapGet spec2.schemas k)
    (n : String) : resolved_for spec1 f n = resolved_for spec2 f n := by
  unfold resolved_for
  rw [hlookup n]

theorem deps_complete (spec : OpenApi) (f : FilterConfig)
    (dts1 : List DataType) (deps1 : List String)
    (hphase1 : process_components_entries spec f spec.schemas [] [] =
      .ok (dts1, deps1))
    (hauto : f.auto_include_dependencies = true) :
    ∀ u, Reach spec f u → u ∈ deps1 := by
  have hp1 := phase1_spec spec f spec.schemas [] [] dts1 deps1 hphase1
  intro u hu
  induction hu with
  | root r u2 hacc hcand hprim =>
    rcases hdef : mapGet spec.schemas r with _ | d0
    · simp only [dependency_candidates, hdef] at hcand
      simp at hcand
    · exact hp1.2.2.2.2.1 hauto (r, d0) (mapGet_mem hdef)
        (by simpa using hacc) u2 hcand hprim
  | step s u2 hs hcand hprim ihs =>
    rcases hp1.2.2.2.1 s ihs with h2 | h2
    · simp at h2
    · exact h2 u2 hcand hprim

theorem process_components_characterization (spec : OpenApi)
    (f : FilterConfig) (l : List DataType)
    (hkeys : (spec.schemas.map Prod.fst).Nodup)
    (hok : process_components spec f = .ok l) :
    (∀ dt ∈ l, resolved_for spec f dt.schema_name = some dt) ∧
    (l.map DataType.schema_name).Nodup ∧
    (∀ n, n ∈ l.map DataType.schema_name ↔
      ((mapGet spec.schemas n).isSome ∧ f.is_schema_accepted n = true) ∨
      (f.auto_include_dependencies = true ∧ Reach spec f n ∧
        (mapGet spec.schemas n).isSome)) := by
  unfold process_components at hok
  split at hok
  · exact absurd hok (by simp)
  next dts1 deps1 hphase1 =>
    have hp1 := phase1_spec spec f spec.schemas [] [] dts1 deps1 hphase1
    have hp2 := phase2_spec spec f deps1 dts1 l hok
    have names1 : dts1.map DataType.schema_name =
        (spec.schemas.filter (fun kv => f.is_schema_accepted kv.1)).map
          Prod.fst := by
      simpa using hp1.1
    have helem : ∀ dt ∈ l, resolved_for spec f dt.schema_name = some dt := by
      intro dt hdt
      rcases hp2.2.1 dt hdt with hin | ⟨d, hdef, hproc⟩
      · rcases hp1.2.2.2.2.2.2.1 dt hin with habs | ⟨kv, hkv, hacc, hproc⟩
        · simp at habs
        · have hname := process_schema_name hproc
          have hdef : mapGet spec.schemas kv.1 = some kv.2 :=
            mapGet_of_mem_nodup hkeys hkv
          unfold resolved_for
          rw [hname, hdef]
          simp only [hproc]
      · unfold resolved_for
        rw [hdef]
        simp only [hproc]
    refine ⟨helem, ?_, ?_⟩
    · apply hp2.2.2.2.2
      rw [names1]
      have hsub : ((spec.schemas.filter
          (fun kv => f.is_schema_accepted kv.1)).map Prod.fst).Sublist
          (spec.schemas.map Prod.fst) :=
        (List.filter_sublist _).map _
      exact hkeys.sublist hsub
    · intro n
      constructor
      · intro hn
        rcases hp2.2.2.1 n hn with h1 | h1
        · left
          rw [names1] at h1
          rcases List.mem_map.mp h1 with ⟨kv, hkvf, hfst⟩
          have hkfilter := List.mem_filter.mp hkvf
          refine ⟨?_, by rw [← hfst]; exact hkfilter.2⟩
          apply mapGet_isSome_of_mem_keys
          exact List.mem_map.mpr ⟨kv, hkfilter.1, hfst⟩
        · by_cases hauto : f.auto_include_dependencies = true
          · right
            refine ⟨hauto, ?_, ?_⟩
            · exact hp1.2.2.2.2.2.1 (by intro x hx; simp at hx) n h1
            · rcases List.mem_map.mp hn with ⟨dt, hdtl, hname⟩
              have := helem dt hdtl
              rw [hname] at this
              unfold resolved_for at this
              rcases hdef : mapGet spec.schemas n with _ | d
              · rw [hdef] at this
                simp at this
              · rfl
          · exfalso
            have hauto2 : f.auto_include_dependencies = false := by
              simpa using hauto
            have := phase1_no_auto spec f hauto2 spec.schemas [] []
              (dts1, deps1) hphase1
            simp only at this
            rw [this] at h1
            simp at h1
      · intro h
        rcases h with ⟨hsome, hacc⟩ | ⟨hauto, hreach, hsome⟩
        · rcases hdef : mapGet spec.schemas n with _ | d
          · rw [hdef] at hsome
            simp at hsome
          · have hmem : (n, d) ∈ spec.schemas := mapGet_mem hdef
            have hn1 : n ∈ dts1.map DataType.schema_name := by
              rw [names1]
              exact List.mem_map.mpr
                ⟨(n, d), List.mem_filter.mpr ⟨hmem, by simpa using hacc⟩, rfl⟩
            rcases List.mem_map.mp hn1 with ⟨dt, hdtin, hname⟩
            exact List.mem_map.mpr ⟨dt, hp2.1 dt hdtin, hname⟩
        · exact hp2.2.2.2.1 n
            (deps_complete spec f dts1 deps1 hphase1 hauto n hreach) hsome

theorem process_components_perm_ok (spec1 spec2 : OpenApi) (f : FilterConfig)
    (l1 : List DataType) (hperm : spec1.schemas.Perm spec2.schemas)
    (hk1 : (spec1.schemas.map Prod.fst).Nodup)
    (hok1 : process_components spec1 f = .ok l1) :
    ∃ l2, process_components spec2 f = .ok l2 := by
  have hlookup := mapGet_perm hperm hk1
  have hchar1 := process_components_characterization spec1 f l1 hk1 hok1
  unfold process_components at hok1
  split at hok1
  · exact absurd hok1 (by simp)
  next dts1 deps1 hphase1 =>
    have hp1run1 := phase1_spec spec1 f spec1.schemas [] [] dts1 deps1 hphase1
    obtain ⟨⟨dts2, deps2⟩, hphase1b⟩ := phase1_ok spec2 f spec2.schemas [] []
      (by
        intro kv hkv hacc
        exact hp1run1.2.2.2.2.2.2.2 kv (hperm.mem_iff.mpr hkv) hacc)
    have hp1run2 := phase1_spec spec2 f spec2.schemas [] [] dts2 deps2 hphase1b
    obtain ⟨l2, hphase2b⟩ := phase2_ok spec2 f deps2 dts2
      (by
        intro t ht d hdef
        by_cases hauto : f.auto_include_dependencies = true
        · have hreach2 : Reach spec2 f t :=
            hp1run2.2.2.2.2.2.1 (by intro x hx; simp at hx) t ht
          have hreach1 : Reach spec1 f t :=
            Reach_ext (fun k => (hlookup k).symm) hreach2
          have hsome1 : (mapGet spec1.schemas t).isSome := by
            rw [hlookup t, hdef]
            rfl
          have htl1 : t ∈ l1.map DataType.schema_name :=
            (hchar1.2.2 t).mpr (Or.inr ⟨hauto, hreach1, hsome1⟩)
          rcases List.mem_map.mp htl1 with ⟨dt, hdtl, hname⟩
          have hres := hchar1.1 dt hdtl
          rw [hname] at hres
          rcases hdef1 : mapGet spec1.schemas t with _ | d1
          · rw [hlookup t, hdef] at hdef1
            exact absurd hdef1 (by simp)
          · have hd1 : d1 = d := by
              rw [hlookup t, hdef] at hdef1
              exact (Option.some.inj hdef1).symm
            unfold resolved_for at hres
            simp only [hdef1] at hres
            split at hres
            · exact absurd hres (by simp)
            next dt2 hproc2 =>
              rw [hd1] at hproc2
              exact ⟨dt2, hproc2⟩
        · exfalso
          have hauto2 : f.auto_include_dependencies = false := by
            simpa using hauto
          have := phase1_no_auto spec2 f hauto2 spec2.schemas [] []
            (dts2, deps2) hphase1b
          simp only at this
          rw [this] at ht
          simp at ht)
    refine ⟨l2, ?_⟩
    unfold process_components
    rw [hphase1b]
    exact hphase2b

theorem map_name_sorted (l : List DataType) :
    ((l.insertionSort (fun a b => a.schema_name ≤ b.schema_name)).map
      DataType.schema_name).Sorted (· ≤ ·) := by
  haveI : IsTotal DataType (fun a b => a.schema_name ≤ b.schema_name) :=
    ⟨fun a b => le_total _ _⟩
  haveI : IsTrans DataType (fun a b => a.schema_name ≤ b.schema_name) :=
    ⟨fun a b c h1 h2 => le_trans h1 h2⟩
  have h := List.sorted_insertionSort
    (fun a b => a.schema_name ≤ b.schema_name) l
  exact List.Pairwise.map DataType.schema_name (fun a b hab => hab) h

theorem list_eq_of_map_name_eq (g : String → Option DataType) :
    ∀ (u v : List DataType),
      u.map DataType.schema_name = v.map DataType.schema_name →
      (∀ x ∈ u, g x.schema_name = some x) →
      (∀ x ∈ v, g x.schema_name = some x) →
      u = v := by
  intro u
  induction u with
  | nil =>
    intro v hmap _ _
    rcases v with _ | ⟨y, ys⟩
    · rfl
    · simp at hmap
  | cons x xs ih =>
    intro v hmap hu hv
    rcases v with _ | ⟨y, ys⟩
    · simp at hmap
    · simp only [List.map_cons, List.cons.injEq] at hmap
      have hx := hu x (by simp)
      have hy := hv y (by simp)
      rw [← hmap.1] at hy
      rw [hx] at hy
      have hxy : x = y := Option.some.inj hy
      rw [hxy, ih ys hmap.2 (fun z hz => hu z (by simp [hz]))
        (fun z hz => hv z (by simp [hz]))]

/-- Claim C4: the generation pipeline is a pure function of its inputs (so
two runs on the same Schema Model and Filter trivially agree byte for byte),
and — the substantive half — its output text does not depend on the
iteration order of the components/schemas map: permuting the schema map of a
successful run yields the identical output string, because the resolved type
list and each type's members are deterministically sorted before emission.
The schema map, being a HashMap, has pairwise-distinct keys (hkeys). -/
theorem C4_output_byte_identical_under_schema_map_permutation
    (spec1 spec2 : OpenApi) (config : FilterConfig) (out : String)
    (hperm : spec1.schemas.Perm spec2.schemas)
    (hkeys : (spec1.schemas.map Prod.fst).Nodup)
    (hok : generate_openapi_types spec1 config = .ok out) :
    generate_openapi_types spec2 config = .ok out := by
  have hlookup := mapGet_perm hperm hkeys
  have hk2 : (spec2.schemas.map Prod.fst).Nodup :=
    ((hperm.map Prod.fst).nodup_iff).mp hkeys
  unfold generate_openapi_types at hok
  split at hok
  · exact absurd hok (by simp)
  next l1 hok1 =>
    by_cases hmiss1 : find_missing_schemas l1 ≠ []
    · rw [if_pos hmiss1] at hok
      exact absurd hok (by simp)
    · rw [if_neg hmiss1] at hok
      have hmiss1b : find_missing_schemas l1 = [] := by simpa using hmiss1
      have hout := Except.ok.inj hok
      obtain ⟨l2, hok2⟩ :=
        process_components_perm_ok spec1 spec2 config l1 hperm hkeys hok1
      have hchar1 :=
        process_components_characterization spec1 config l1 hkeys hok1
      have hchar2 :=
        process_components_characterization spec2 config l2 hk2 hok2
      have hnames_iff : ∀ n, n ∈ l1.map DataType.schema_name ↔
          n ∈ l2.map DataType.schema_name := by
        intro n
        rw [hchar1.2.2 n, hchar2.2.2 n]
        constructor
        · rintro (⟨hs, ha⟩ | ⟨hau, hrch, hs⟩)
          · exact Or.inl ⟨by rw [← hlookup n]; exact hs, ha⟩
          · exact Or.inr ⟨hau, Reach_ext hlookup hrch,
              by rw [← hlookup n]; exact hs⟩
        · rintro (⟨hs, ha⟩ | ⟨hau, hrch, hs⟩)
          · exact Or.inl ⟨by rw [hlookup n]; exact hs, ha⟩
          · exact Or.inr ⟨hau, Reach_ext (fun k => (hlookup k).symm) hrch,
              by rw [hlookup n]; exact hs⟩
      have hnamesperm : (l1.map DataType.schema_name).Perm
          (l2.map DataType.schema_name) :=
        (List.perm_ext_iff_of_nodup hchar1.2.1 hchar2.2.1).mpr hnames_iff
      haveI : IsAntisymm String (· ≤ ·) := ⟨fun a b h1 h2 => le_antisymm h1 h2⟩
      have hs1perm := List.perm_insertionSort
        (fun (a b : DataType) => a.schema_name ≤ b.schema_name) l1
      have hs2perm := List.perm_insertionSort
        (fun (a b : DataType) => a.schema_name ≤ b.schema_name) l2
      have hnameeq :
          (List.insertionSort
            (fun (a b : DataType) => a.schema_name ≤ b.schema_name) l1).map
              DataType.schema_name =
          (List.insertionSort
            (fun (a b : DataType) => a.schema_name ≤ b.schema_name) l2).map
              DataType.schema_name := by
        exact List.eq_of_perm_of_sorted
          ((hs1perm.map _).trans (hnamesperm.trans (hs2perm.map _).symm))
          (map_name_sorted l1) (map_name_sorted l2)
      have hels1 : ∀ x ∈ List.insertionSort
          (fun (a b : DataType) => a.schema_name ≤ b.schema_name) l1,
          resolved_for spec1 config x.schema_name = some x :=
        fun x hx => hchar1.1 x (hs1perm.mem_iff.mp hx)
      have hels2 : ∀ x ∈ List.insertionSort
          (fun (a b : DataType) => a.schema_name ≤ b.schema_name) l2,
          resolved_for spec1 config x.schema_name = some x := by
        intro x hx
        rw [resolved_for_ext hlookup]
        exact hchar2.1 x (hs2perm.mem_iff.mp hx)
      have hsorteq := list_eq_of_map_name_eq (resolved_for spec1 config)
        _ _ hnameeq hels1 hels2
      have hl12 : l1.Perm l2 := hs1perm.symm.trans (hsorteq ▸ hs2perm)
      have hmiss2 : find_missing_schemas l2 = [] := by
        rw [List.eq_nil_iff_forall_not_mem]
        intro t ht
        rw [mem_find_missing_schemas] at ht
        have ht1 : t ∈ find_missing_schemas l1 := by
          rw [mem_find_missing_schemas]
          refine ⟨ht.1, ?_, ?_⟩
          · rcases ht.2.1 with ⟨dt, hdt, hmem⟩
            exact ⟨dt, hl12.mem_iff.mpr hdt, hmem⟩
          · intro dt hdt
            exact ht.2.2 dt (hl12.mem_iff.mp hdt)
        rw [hmiss1b] at ht1
        simp at ht1
      unfold generate_openapi_types
      simp only [hok2]
      rw [if_neg (by simp [hmiss2])]
      apply congrArg Except.ok
      rw [← hsorteq]
      exact hout

/-- Two-schema map in one iteration order. -/
def c4Spec1 : OpenApi :=
  { schemas := [("B", primSchema "string"), ("A", primSchema "integer")] }

/-- The same two-schema map in the swapped iteration order. -/
def c4Spec2 : OpenApi :=
  { schemas := [("A", primSchema "integer"), ("B", primSchema "string")] }

/-- The output text of the first run. -/
def c4Out : String :=
  match generate_openapi_types c4Spec1 defaultFilterConfig with
  | .ok s => s
  | .error _ => ""

theorem C4_output_byte_identical_under_schema_map_permutation_witness :
    c4Spec1.schemas.Perm c4Spec2.schemas ∧
    (c4Spec1.schemas.map Prod.fst).Nodup ∧
    generate_openapi_types c4Spec2 defaultFilterConfig = .ok c4Out :=
  ⟨List.Perm.swap ("A", primSchema "integer") ("B", primSchema "string") [],
   by decide,
   C4_output_byte_identical_under_schema_map_permutation c4Spec1 c4Spec2
     defaultFilterConfig c4Out
     (List.Perm.swap ("A", primSchema "integer") ("B", primSchema "string") [])
     (by decide) rfl⟩
